import Mathlib

/-!
Verification of the concurrency-control layer of `store_with_lock.py`
(class `GoogleSheetsStoreWithLocks`): per-date optimistic version counter,
best-effort TTL lock, and full-replace partial save, all over a row-oriented
sheet store.

Sheets are modelled as lists of rows (`List (List String)`), the first row
being the header that every scan of the source skips (`if idx == 1: continue`).
Wall-clock instants are natural numbers (seconds); `datetime.isoformat()+"Z"`
and `datetime.fromisoformat(s.replace("Z",""))` are modelled by a decimal
rendering with a trailing Z and its inverse, sharing the decimal codec that
also models Python's `str`/`int` on version cells.  Randomness (`uuid.uuid4`)
and the current time are lifted to explicit parameters, and the interference
of concurrent clients on the lock sheet between a write and the subsequent
re-read is an explicit environment function.
-/

/-- Characters Python's `str.strip` removes (ASCII whitespace). -/
def pyWs (c : Char) : Bool :=
  c == ' ' || c == '\t' || c == '\n' || c == '\r' || c == '\x0b' || c == '\x0c'

/-- Model of Python `str.strip` on a character list. -/
def pyTrim (cs : List Char) : List Char :=
  ((cs.dropWhile pyWs).reverse.dropWhile pyWs).reverse

/-- Model of Python `str.strip` on strings. -/
def pyStrip (s : String) : String :=
  String.mk (pyTrim s.toList)

/-- Value of a decimal digit character, if it is one. -/
def digitVal? (c : Char) : Option Nat :=
  if c.isDigit then some (c.toNat - 48) else none

/-- One step of reading a decimal numeral most-significant digit first. -/
def digStep (acc : Option Nat) (c : Char) : Option Nat :=
  match acc, digitVal? c with
  | some a, some d => some (a * 10 + d)
  | _, _ => none

/-- Reads a nonempty all-digit character list as a natural number. -/
def pyNatChars? (cs : List Char) : Option Nat :=
  if cs.isEmpty then none else cs.foldl digStep (some 0)

/-- Fuel-driven digit expansion; the fuel only bounds the recursion depth
and any fuel exceeding the number suffices. -/
def pyDigitsGo (fuel n : Nat) : List Char :=
  match fuel with
  | 0 => []
  | fuel + 1 =>
      if n < 10 then [Char.ofNat (n + 48)]
      else pyDigitsGo fuel (n / 10) ++ [Char.ofNat (n % 10 + 48)]

/-- Decimal digit characters of `n`, most significant first: the rendering
both of Python `str` on a non-negative int and of the instant inside an
ISO timestamp. -/
def pyDigits (n : Nat) : List Char := pyDigitsGo (n + 1) n

/-- Model of Python `str` on a natural number. -/
def pyStrNat (n : Nat) : String :=
  String.mk (pyDigits n)

/-- Model of Python `str` on an int. -/
def pyStr (n : Int) : String :=
  if n < 0 then String.mk ('-' :: pyDigits (-n).toNat) else String.mk (pyDigits n.toNat)

/-- Model of Python `int(s)` on the character list of `s`: optional sign
after stripping whitespace, then a nonempty run of decimal digits; `none`
models the `ValueError` branch. -/
def pyIntChars? (cs : List Char) : Option Int :=
  match pyTrim cs with
  | [] => none
  | c :: cs' =>
    if c == '-' then (pyNatChars? cs').map (fun m => -(Int.ofNat m))
    else if c == '+' then (pyNatChars? cs').map (fun m => Int.ofNat m)
    else (pyNatChars? (c :: cs')).map (fun m => Int.ofNat m)

/-- Model of Python `int(s)`. -/
def pyInt? (s : String) : Option Int := pyIntChars? s.toList

/-- Model of `datetime.utcfromtimestamp(t).isoformat()+"Z"`: the stored form
of an expiry instant. -/
def iso (t : Nat) : String :=
  String.mk (pyDigits t ++ ['Z'])

/-- Model of `datetime.fromisoformat(s.replace("Z",""))`, returning `none`
where the source's `except` branch fires. -/
def parseIso (s : String) : Option Nat :=
  pyNatChars? (s.toList.filter (fun c => c != 'Z'))

/-! ## Sheet primitives

`gspread` worksheets are lists of rows; all indices below are the 1-based
sheet indices the source manipulates (`enumerate(values, start=1)`), and the
header row occupies index 1. -/

/-- A sheet row as returned by `row_values`/`get_all_values`. -/
abbrev Row := List String

/-- A worksheet: list of rows, the head being the header row. -/
abbrev WS := List Row

/-- The `i`-th cell of a row (0-based column), empty when absent: models the
source's guarded `row[i] if len(row) > i else ""` accesses. -/
def cell (r : Row) (i : Nat) : String := r.getD i ("")

/-- The row at 1-based sheet index `idx`. -/
def wsRow (ws : WS) (idx : Nat) : Row := ws.getD (idx - 1) []

/-- `len(row) > 0 and row[0] == date_key`: the scan condition of
`_find_rows_for_date` and `_lock_row_index`. -/
def rowMatches (r : Row) (key : String) : Bool := !r.isEmpty && (cell r 0 == key)

/-- Tail of `_find_rows_for_date`'s scan: `idx` is the 1-based index of the
first row of the remaining list; index 1 (the header) was already skipped. -/
def find_rows_go (key : String) : List Row → Nat → List Nat
  | [], _ => []
  | r :: rs, idx =>
      if rowMatches r key then idx :: find_rows_go key rs (idx + 1)
      else find_rows_go key rs (idx + 1)

/-- `_find_rows_for_date`: 1-based indices of the data rows whose first cell
is `date_key`, the header row being skipped. -/
def find_rows_for_date (ws : WS) (date_key : String) : List Nat :=
  match ws with
  | [] => []
  | _ :: t => find_rows_go date_key t 2

/-- `ws.delete_rows(i)` for a 1-based index. -/
def ws_delete_row (ws : WS) (i : Nat) : WS := ws.eraseIdx (i - 1)

/-- The delete loop of `save_date`: `for r in sorted(idxs, reverse=True):
self.ws_resv.delete_rows(r)`. -/
def delete_rows_for (ws : WS) (date_key : String) : WS :=
  (find_rows_for_date ws date_key).reverse.foldl ws_delete_row ws

/-! ## Version store -/

/-- `len(row) >= 2 and row[0] == date_key`: the scan condition of
`_get_version` and `_set_version`. -/
def versMatch (key : String) (r : Row) : Bool :=
  decide (r.length ≥ 2) && (cell r 0 == key)

/-- Tail of `_get_version`'s scan over the data rows. -/
def get_version_go (key : String) : List Row → Int
  | [] => 0
  | r :: rs =>
      if versMatch key r then (pyInt? (cell r 1)).getD 0
      else get_version_go key rs

/-- `_get_version`: first matching data row's second cell parsed as an int,
`0` on a parse failure (the source's bare `except`) or an absent key. -/
def get_version (vers : WS) (date_key : String) : Int :=
  match vers with
  | [] => 0
  | _ :: t => get_version_go date_key t

/-- Tail of `_set_version`'s scan: update the first matching row's second
cell in place, else append a fresh `[date_key, str(new_version)]` row. -/
def set_version_go (key : String) (v : Int) : List Row → List Row
  | [] => [[key, pyStr v]]
  | r :: rs =>
      if versMatch key r then r.set 1 (pyStr v) :: rs
      else r :: set_version_go key v rs

/-- `_set_version`. -/
def set_version (vers : WS) (date_key : String) (v : Int) : WS :=
  match vers with
  | [] => [[date_key, pyStr v]]
  | h :: t => h :: set_version_go date_key v t

/-! ## Lock manager -/

/-- Tail of `_lock_row_index`'s scan. -/
def lock_row_index_go (key : String) : List Row → Nat → Option Nat
  | [], _ => none
  | r :: rs, idx =>
      if rowMatches r key then some idx else lock_row_index_go key rs (idx + 1)

/-- `_lock_row_index`: 1-based index of the first data row for `date_key`. -/
def lock_row_index (lock : WS) (date_key : String) : Option Nat :=
  match lock with
  | [] => none
  | _ :: t => lock_row_index_go date_key t 2

/-- Pads a row with empty cells up to `n` cells. -/
def padTo (r : Row) (n : Nat) : Row := r ++ List.replicate (n - r.length) ("")

/-- `ws.update(f"B{i}:D{i}", [[b, c, d]])`: overwrite columns B–D of a row,
leaving column A (and any column past D) unchanged. -/
def updateBD (r : Row) (b c d : String) : Row :=
  (((padTo r 4).set 1 b).set 2 c).set 3 d

/-- Environment of one `acquire_lock` call: the wall-clock instant read at
attempt `k`, interference of other clients on the lock sheet while this
client sleeps before attempt `k`, and interference between attempt `k`'s
write and its confirming re-read (the race the source's re-check filters). -/
structure AcqEnv where
  nowAt : Nat → Nat
  pre : Nat → WS → WS
  mid : Nat → WS → WS

/-- The re-check of `acquire_lock` (lines 114–118): re-read the record and
succeed only if the stored token equals the token just written. -/
def acquire_check (s : WS) (key token : String) : Bool :=
  match lock_row_index s key with
  | none => false
  | some j =>
      let row2 := wsRow s j
      decide (row2.length ≥ 4) && (cell row2 0 == key) && (cell row2 1 == token)

/-- The retry loop of `acquire_lock`: `k` is the current value of `attempt`,
the fuel is the number of remaining iterations of `range(max_retry)`, and
the third component logs each `time.sleep(backoff * (attempt+1))` as the
multiplier `attempt + 1` it applies to `backoff`. -/
def acquire_go (key user token : String) (ttl_sec : Nat) (env : AcqEnv)
    (k : Nat) : Nat → WS → List Nat → Option String × WS × List Nat
  | 0, s, sleeps => (none, s, sleeps)
  | fuel + 1, s, sleeps =>
      let s0 := env.pre k s
      let now := env.nowAt k
      let expiresCell := iso (now + ttl_sec)
      match lock_row_index s0 key with
      | none =>
          let s1 := s0 ++ [[key, token, user, expiresCell]]
          let s2 := env.mid k s1
          if acquire_check s2 key token then (some token, s2, sleeps)
          else acquire_go key user token ttl_sec env (k + 1) fuel s2 (sleeps ++ [k + 1])
      | some i =>
          let row := wsRow s0 i
          let curTok := pyStrip (cell row 1)
          let curExp := pyStrip (cell row 3)
          let expired : Bool :=
            if curExp == ("") then true
            else match parseIso curExp with
                 | some t => decide (t ≤ now)
                 | none => true
          if curTok != ("") && !expired && curTok != token then
            acquire_go key user token ttl_sec env (k + 1) fuel s0 (sleeps ++ [k + 1])
          else
            let s1 := s0.set (i - 1) (updateBD row token user expiresCell)
            let s2 := env.mid k s1
            if acquire_check s2 key token then (some token, s2, sleeps)
            else acquire_go key user token ttl_sec env (k + 1) fuel s2 (sleeps ++ [k + 1])

/-- `acquire_lock(date_key, user, ttl_sec, max_retry, backoff)`: the fresh
`uuid.uuid4()` token is the explicit parameter `token`. -/
def acquire_lock (lock : WS) (date_key user token : String) (ttl_sec max_retry : Nat)
    (env : AcqEnv) : Option String × WS × List Nat :=
  acquire_go date_key user token ttl_sec env 0 max_retry lock []

/-- `release_lock(date_key, token)`: tombstone the record (empty token and
holder, expiry one second in the past) only when the stored token matches. -/
def release_lock (lock : WS) (date_key token : String) (now : Nat) : WS :=
  match lock_row_index lock date_key with
  | none => lock
  | some i =>
      let row := wsRow lock i
      if decide (row.length ≥ 2) && (cell row 1 == token) then
        lock.set (i - 1) (updateBD row ("") ("") (iso (now - 1)))
      else lock

/-- The token stored in the lock record for `date_key`: the second cell of
its row when that row physically reaches the token column (recall that
`row_values` drops trailing empty cells, so a shorter row carries none). -/
def stored_token (lock : WS) (date_key : String) : Option String :=
  match lock_row_index lock date_key with
  | none => none
  | some i =>
      if (wsRow lock i).length ≥ 2 then some (cell (wsRow lock i) 1) else none

/-! ## Partition state (the in-memory `day` dict) -/

/-- One occupant record `{user, note, createdAt}`. -/
structure Slot where
  user : String
  note : String
  createdAt : String
deriving DecidableEq, Repr

/-- One court's dict: insertion-ordered association list `blockId ↦ slot or
None`, as a Python dict with string keys. -/
abbrev CourtDict := List (String × Option Slot)

/-- The `day` dict: court name ↦ that court's block dict. -/
abbrev Day := List (String × CourtDict)

/-- Python dict lookup (first binding; dicts never hold duplicate keys). -/
def dlookup (k : String) : List (String × α) → Option α
  | [] => none
  | p :: ps => if p.1 == k then some p.2 else dlookup k ps

/-- Python dict assignment `d[k] = v`: overwrite in place, else append. -/
def dinsert : List (String × α) → String → α → List (String × α)
  | [], k, v => [(k, v)]
  | p :: ps, k, v => if p.1 == k then (k, v) :: ps else p :: dinsert ps k v

/-- `day = {"A": {...}, "B": {...}}` with each side initialised to
`{blk["id"]: None for blk in blocks}` from the externally configured block
list (`st.session_state["_blocks"]`). -/
def load_day_init (blocks : List String) : Day :=
  [(("A"), blocks.foldl (fun d b => dinsert d b none) []),
   (("B"), blocks.foldl (fun d b => dinsert d b none) [])]

/-- The body of `load_date`'s row loop: a row with at least six cells whose
court is `"A"` or `"B"` overwrites `day[court][block_id]`. -/
def apply_row (day : Day) (r : Row) : Day :=
  if r.length ≥ 6 then
    let court := cell r 1
    let block_id := cell r 2
    if court == ("A") || court == ("B") then
      dinsert day court
        (dinsert ((dlookup court day).getD []) block_id
          (some (Slot.mk (cell r 3) (cell r 4) (cell r 5))))
    else day
  else day

/-- `load_date`: reconstruct the day from the reservation rows for the key
and pair it with the stored version. -/
def load_date (resv vers : WS) (date_key : String) (blocks : List String) :
    Day × Int :=
  let idxs := find_rows_for_date resv date_key
  (idxs.foldl (fun d i => apply_row d (wsRow resv i)) (load_day_init blocks),
   get_version vers date_key)

/-- The row `save_date` appends for one non-empty slot; an empty (or absent)
`createdAt` falls back to the current instant. -/
def slot_row (date_key court block_id : String) (s : Slot) (nowIso : String) : Row :=
  [date_key, court, block_id, s.user, s.note,
   if s.createdAt == ("") then nowIso else s.createdAt]

/-- The rows contributed by one court's dict, in iteration order. -/
def court_rows (date_key court : String) (inner : CourtDict) (nowIso : String) : List Row :=
  inner.filterMap (fun p => p.2.map (fun sl => slot_row date_key court p.1 sl nowIso))

/-- `new_rows` of `save_date`: one row per non-empty slot, court `"A"` then
court `"B"`; other keys of `day` are never visited. -/
def new_rows (date_key : String) (day : Day) (nowIso : String) : List Row :=
  court_rows date_key ("A") ((dlookup ("A") day).getD []) nowIso
    ++ court_rows date_key ("B") ((dlookup ("B") day).getD []) nowIso

/-! ## The store and `save_date` -/

/-- The three worksheets (`reservations`, `versions`, `locks`). -/
structure Sheets where
  resv : WS
  vers : WS
  lock : WS
deriving DecidableEq

/-- Environment of one `save_date` call: the token `acquire_lock` would
generate, its environment, the instant read for a missing `createdAt`, and
the instant read inside the final `release_lock`. -/
structure SaveEnv where
  token : String
  acq : AcqEnv
  rowNow : Nat
  relNow : Nat

/-- The write operations the `try` block of `save_date` performs after the
version check passes, in order: the row deletions (descending index), the
bulk append when there are new rows, and the version bump.  Empty when the
check fails, since the source returns before writing. -/
def body_steps (date_key : String) (day : Day) (expected : Int) (rowNow : Nat)
    (s : Sheets) : List (Sheets → Sheets) :=
  if get_version s.vers date_key ≠ expected then []
  else
    ((find_rows_for_date s.resv date_key).reverse.map
        (fun i => fun t => { t with resv := ws_delete_row t.resv i }))
      ++ (if (new_rows date_key day (iso rowNow)).isEmpty then []
          else [fun t => { t with resv := t.resv ++ new_rows date_key day (iso rowNow) }])
      ++ [fun t =>
            { t with vers := set_version t.vers date_key (get_version s.vers date_key + 1) }]

/-- Runs a list of store writes in order. -/
def run_steps (s : Sheets) (fs : List (Sheets → Sheets)) : Sheets :=
  fs.foldl (fun t f => f t) s

/-- Lines 154–173 of `save_date`: version check, full-replace write,
version bump. -/
def save_body (s : Sheets) (date_key : String) (day : Day) (expected : Int)
    (rowNow : Nat) : (Bool × String) × Sheets :=
  if get_version s.vers date_key ≠ expected then ((false, ("VERSION_CONFLICT")), s)
  else ((true, ("")), run_steps s (body_steps date_key day expected rowNow s))

/-- `save_date(date_key, day, expected_version, user, use_lock, ttl_sec)`:
lock acquisition (`max_retry = 5` as in the source's default), the body,
and the `finally` clause releasing an acquired lock. -/
def save_date (s : Sheets) (date_key : String) (day : Day) (expected : Int)
    (user : String) (use_lock : Bool) (ttl_sec : Nat) (env : SaveEnv) :
    (Bool × String) × Sheets :=
  if use_lock then
    match acquire_lock s.lock date_key user env.token ttl_sec 5 env.acq with
    | (none, l1, _) => ((false, ("LOCK_FAIL")), { s with lock := l1 })
    | (some tok, l1, _) =>
        let s1 : Sheets := { s with lock := l1 }
        let br := save_body s1 date_key day expected env.rowNow
        (br.1, { br.2 with lock := release_lock br.2.lock date_key tok env.relNow })
  else save_body s date_key day expected env.rowNow

/-- `save_date` when the sheet transport raises mid-commit: with
`raiseAfter = some n` the body aborts after its first `n` write operations
and the error propagates, but the `finally` clause still releases an
acquired lock; `raiseAfter = none` is the normal execution. -/
def save_date_exc (s : Sheets) (date_key : String) (day : Day) (expected : Int)
    (user : String) (use_lock : Bool) (ttl_sec : Nat) (env : SaveEnv)
    (raiseAfter : Option Nat) (err : String) :
    Except String (Bool × String) × Sheets :=
  if use_lock then
    match acquire_lock s.lock date_key user env.token ttl_sec 5 env.acq with
    | (none, l1, _) => (Except.ok (false, ("LOCK_FAIL")), { s with lock := l1 })
    | (some tok, l1, _) =>
        let s1 : Sheets := { s with lock := l1 }
        let rs :=
          match raiseAfter with
          | none =>
              let br := save_body s1 date_key day expected env.rowNow
              (Except.ok br.1, br.2)
          | some n =>
              (Except.error err,
               run_steps s1 ((body_steps date_key day expected env.rowNow s1).take n))
        (rs.1, { rs.2 with lock := release_lock rs.2.lock date_key tok env.relNow })
  else
    match raiseAfter with
    | none =>
        let br := save_body s date_key day expected env.rowNow
        (Except.ok br.1, br.2)
    | some n =>
        (Except.error err,
         run_steps s ((body_steps date_key day expected env.rowNow s).take n))

/-- The reservation sheet after a successful `save_date` body: matching rows
deleted, one fresh row per non-empty slot appended. -/
def saved_resv (resv : WS) (date_key : String) (day : Day) (rowNow : Nat) : WS :=
  let rows := new_rows date_key day (iso rowNow)
  let d := delete_rows_for resv date_key
  if rows.isEmpty then d else d ++ rows

/-- Parameters of one `save_date` call in a sequence of commit attempts. -/
structure CallParams where
  day : Day
  expected : Int
  user : String
  use_lock : Bool
  ttl_sec : Nat
  env : SaveEnv

/-- Runs a sequence of `save_date` calls against one partition key,
counting the successful commits (result `(True, "")`). -/
def run_calls (key : String) : Sheets → List CallParams → Sheets × Nat
  | s, [] => (s, 0)
  | s, cp :: cps =>
      let r := save_date s key cp.day cp.expected cp.user cp.use_lock cp.ttl_sec cp.env
      let rest := run_calls key r.2 cps
      (rest.1, (if r.1 = (true, ("")) then 1 else 0) + rest.2)

/-- The interference-free lock environment: a constant clock and no
concurrent client. -/
def idEnv (now : Nat) : AcqEnv :=
  { nowAt := fun _ => now, pre := fun _ s => s, mid := fun _ s => s }

/-- Python `==` on two slot dicts (or `None`). -/
def optSlotEqB : Option Slot → Option Slot → Bool
  | none, none => true
  | some a, some b => decide (a = b)
  | _, _ => false

/-- Python `==` on two court dicts: same key set, equal values, order
irrelevant. -/
def courtEqB (a b : CourtDict) : Bool :=
  (a.all fun p => optSlotEqB ((dlookup p.1 a).getD none) ((dlookup p.1 b).getD none))
    && (b.all fun p => optSlotEqB ((dlookup p.1 a).getD none) ((dlookup p.1 b).getD none))

/-- Looks up a court and compares with Python `==`. -/
def optCourtEqB : Option CourtDict → Option CourtDict → Bool
  | none, none => true
  | some a, some b => courtEqB a b
  | _, _ => false

/-- Python `==` on two day dicts. -/
def dayEqB (a b : Day) : Bool :=
  (a.all fun p => optCourtEqB (dlookup p.1 a) (dlookup p.1 b))
    && (b.all fun p => optCourtEqB (dlookup p.1 a) (dlookup p.1 b))

/-! ## Properties of the decimal codec -/

/-- The digit expansion does not depend on the fuel, once sufficient. -/
theorem pyDigitsGo_congr :
    ∀ (f1 f2 n : Nat), n < f1 → n < f2 → pyDigitsGo f1 n = pyDigitsGo f2 n := by
  intro f1
  induction f1 with
  | zero => intro f2 n h1 _; omega
  | succ f1' ih =>
      intro f2 n h1 h2
      match f2, h2 with
      | f2' + 1, h2 =>
          simp only [pyDigitsGo]
          by_cases h : n < 10
          · rw [if_pos h, if_pos h]
          · rw [if_neg h, if_neg h]
            have hlt : n / 10 < n := Nat.div_lt_self (by omega) (by omega)
            rw [ih f2' (n / 10) (by omega) (by omega)]

/-- The recursive unfolding of the digit expansion. -/
theorem pyDigits_eq (n : Nat) :
    pyDigits n = if n < 10 then [Char.ofNat (n + 48)]
      else pyDigits (n / 10) ++ [Char.ofNat (n % 10 + 48)] := by
  show pyDigitsGo (n + 1) n = _
  simp only [pyDigitsGo]
  by_cases h : n < 10
  · rw [if_pos h, if_pos h]
  · rw [if_neg h, if_neg h]
    have hlt : n / 10 < n := Nat.div_lt_self (by omega) (by omega)
    rw [pyDigitsGo_congr n (n / 10 + 1) (n / 10) (by omega) (by omega)]
    rfl

/-- Facts about a decimal digit character. -/
theorem digit_char_facts (d : Nat) (hd : d < 10) :
    digitVal? (Char.ofNat (d + 48)) = some d ∧
    pyWs (Char.ofNat (d + 48)) = false ∧
    (Char.ofNat (d + 48) != 'Z') = true ∧
    (Char.ofNat (d + 48) == '-') = false ∧
    (Char.ofNat (d + 48) == '+') = false := by
  interval_cases d <;> exact ⟨by decide, by decide, by decide, by decide, by decide⟩

/-- `pyDigits` always produces at least one character. -/
theorem pyDigits_ne_nil (n : Nat) : pyDigits n ≠ [] := by
  rw [pyDigits_eq]
  split
  · simp
  · simp

/-- Every character of `pyDigits n` is a decimal digit character. -/
theorem pyDigits_mem (n : Nat) : ∀ c ∈ pyDigits n, ∃ d, d < 10 ∧ c = Char.ofNat (d + 48) := by
  induction n using Nat.strong_induction_on with
  | _ n ih =>
    intro c hc
    rw [pyDigits_eq] at hc
    split at hc
    · rename_i h
      simp only [List.mem_singleton] at hc
      exact ⟨n, h, hc⟩
    · rename_i h
      rcases List.mem_append.mp hc with h1 | h2
      · exact ih (n / 10) (Nat.div_lt_self (by omega) (by omega)) c h1
      · simp only [List.mem_singleton] at h2
        exact ⟨n % 10, Nat.mod_lt _ (by omega), h2⟩

/-- Reading the digits of `n` most-significant first onto accumulator `a`. -/
theorem pyDigits_foldl (n : Nat) :
    ∀ a, (pyDigits n).foldl digStep (some a) =
      some (a * 10 ^ (pyDigits n).length + n) := by
  induction n using Nat.strong_induction_on with
  | _ n ih =>
    intro a
    rw [pyDigits_eq]
    split
    · rename_i h
      simp only [List.foldl_cons, List.foldl_nil, List.length_singleton]
      have hd := (digit_char_facts n h).1
      simp [digStep, hd]
    · rename_i h
      rw [List.foldl_append, ih (n / 10) (Nat.div_lt_self (by omega) (by omega)) a]
      have hd := (digit_char_facts (n % 10) (Nat.mod_lt _ (by omega))).1
      simp only [List.foldl_cons, List.foldl_nil, digStep, hd, List.length_append,
        List.length_singleton]
      have : (a * 10 ^ (pyDigits (n / 10)).length + n / 10) * 10 + n % 10 =
          a * 10 ^ ((pyDigits (n / 10)).length + 1) + n := by
        rw [pow_succ]
        have := Nat.div_add_mod n 10
        ring_nf
        omega
      rw [this]

/-- The decimal reader inverts the decimal printer. -/
theorem pyNatChars?_pyDigits (n : Nat) : pyNatChars? (pyDigits n) = some n := by
  have hne := pyDigits_ne_nil n
  rw [pyNatChars?]
  rw [if_neg (by simpa using hne)]
  simpa using pyDigits_foldl n 0

/-- `dropWhile` is the identity on a list without matching characters. -/
theorem dropWhile_eq_self_of_not (p : Char → Bool) :
    ∀ l : List Char, (∀ c ∈ l, p c = false) → l.dropWhile p = l := by
  intro l h
  cases l with
  | nil => rfl
  | cons c cs =>
      rw [List.dropWhile_cons, if_neg]
      simp [h c (by simp)]

/-- `pyTrim` is the identity on a list without whitespace. -/
theorem pyTrim_eq_self (l : List Char) (h : ∀ c ∈ l, pyWs c = false) : pyTrim l = l := by
  unfold pyTrim
  rw [dropWhile_eq_self_of_not pyWs l h,
    dropWhile_eq_self_of_not pyWs l.reverse (by intro c hc; exact h c (List.mem_reverse.mp hc)),
    List.reverse_reverse]

/-- No character of `pyDigits` is whitespace. -/
theorem pyDigits_not_ws (n : Nat) : ∀ c ∈ pyDigits n, pyWs c = false := by
  intro c hc
  obtain ⟨d, hd, rfl⟩ := pyDigits_mem n c hc
  exact (digit_char_facts d hd).2.1

/-- Unfolds `String.toList` on an explicit `String.mk`. -/
theorem toList_mk (l : List Char) : (String.mk l).toList = l := rfl

/-- `int(str(n)) == n`: the version a commit writes is the version the next
read parses. -/
theorem pyIntChars?_cons (c : Char) (cs : List Char) (h : pyTrim (c :: cs) = c :: cs) :
    pyIntChars? (c :: cs) =
      if c == '-' then (pyNatChars? cs).map (fun m => -(Int.ofNat m))
      else if c == '+' then (pyNatChars? cs).map (fun m => Int.ofNat m)
      else (pyNatChars? (c :: cs)).map (fun m => Int.ofNat m) := by
  unfold pyIntChars?
  rw [h]

theorem pyInt?_pyStr (n : Int) : pyInt? (pyStr n) = some n := by
  by_cases hneg : n < 0
  case pos =>
    have hstr : pyStr n = String.mk ('-' :: pyDigits (-n).toNat) := by
      unfold pyStr
      rw [if_pos hneg]
    have htr : pyTrim ('-' :: pyDigits (-n).toNat) = '-' :: pyDigits (-n).toNat := by
      apply pyTrim_eq_self
      intro c hc
      rcases List.mem_cons.mp hc with rfl | hc'
      · decide
      · exact pyDigits_not_ws _ c hc'
    rw [hstr]
    unfold pyInt?
    rw [toList_mk, pyIntChars?_cons _ _ htr, if_pos (by decide), pyNatChars?_pyDigits]
    simp only [Option.map_some', Int.ofNat_eq_coe]
    congr 1
    omega
  case neg =>
    have hstr : pyStr n = String.mk (pyDigits n.toNat) := by
      unfold pyStr
      rw [if_neg hneg]
    have htr : pyTrim (pyDigits n.toNat) = pyDigits n.toNat :=
      pyTrim_eq_self _ (pyDigits_not_ws _)
    obtain ⟨c, cs, hcons⟩ : ∃ c cs, pyDigits n.toNat = c :: cs := by
      cases h : pyDigits n.toNat with
      | nil => exact absurd h (pyDigits_ne_nil _)
      | cons c cs => exact ⟨c, cs, rfl⟩
    obtain ⟨d, hd, hc⟩ := pyDigits_mem n.toNat c (by rw [hcons]; simp)
    rw [hstr]
    unfold pyInt?
    rw [toList_mk, hcons, pyIntChars?_cons c cs (by rw [← hcons]; exact htr)]
    rw [hc, if_neg (by simp [(digit_char_facts d hd).2.2.2.1]),
      if_neg (by simp [(digit_char_facts d hd).2.2.2.2])]
    rw [← hc, ← hcons, pyNatChars?_pyDigits]
    simp only [Option.map_some', Int.ofNat_eq_coe]
    congr 1
    omega

/-- The stored expiry round-trips: parsing `iso t` yields `t`. -/
theorem parseIso_iso (t : Nat) : parseIso (iso t) = some t := by
  unfold parseIso iso
  simp only [String.toList]
  rw [List.filter_append]
  have h1 : (pyDigits t).filter (fun c => c != 'Z') = pyDigits t := by
    apply List.filter_eq_self.mpr
    intro c hc
    obtain ⟨d, hd, rfl⟩ := pyDigits_mem t c hc
    exact (digit_char_facts d hd).2.2.1
  have h2 : List.filter (fun c => c != 'Z') ['Z'] = [] := by decide
  rw [h1, h2, List.append_nil, pyNatChars?_pyDigits]

/-- Stripping an `iso` timestamp changes nothing. -/
theorem pyStrip_iso (t : Nat) : pyStrip (iso t) = iso t := by
  unfold pyStrip iso
  simp only [String.toList]
  congr 1
  apply pyTrim_eq_self
  intro c hc
  rcases List.mem_append.mp hc with h1 | h2
  · exact pyDigits_not_ws t c h1
  · simp only [List.mem_singleton] at h2
    subst h2
    decide

/-- Parsing the empty cell fails (feeds the `expired = True` default). -/
theorem parseIso_empty : parseIso ("") = none := by decide

/-! ## Cell and row lemmas -/

/-- Setting one cell leaves the others unchanged. -/
theorem cell_set_ne (r : Row) (i j : Nat) (v : String) (h : i ≠ j) :
    cell (r.set i v) j = cell r j := by
  unfold cell
  rw [List.getD_eq_getElem?_getD, List.getD_eq_getElem?_getD, List.getElem?_set_ne h]

/-- Reading back a cell just set. -/
theorem cell_set_self (r : Row) (i : Nat) (v : String) (h : i < r.length) :
    cell (r.set i v) i = v := by
  unfold cell
  rw [List.getD_eq_getElem?_getD, List.getElem?_set_self h]
  rfl

/-- `versMatch` only looks at length and the first cell, so updating the
version cell preserves it. -/
theorem versMatch_set1 (key : String) (r : Row) (v : String) :
    versMatch key (r.set 1 v) = versMatch key r := by
  unfold versMatch
  rw [List.length_set, cell_set_ne r 1 0 v (by omega)]

/-- A matching version row has at least two cells. -/
theorem versMatch_length (key : String) (r : Row) (h : versMatch key r = true) :
    2 ≤ r.length := by
  unfold versMatch at h
  simp only [Bool.and_eq_true, decide_eq_true_eq] at h
  exact h.1

/-! ## The version store round-trips -/

/-- Scanning after an in-place update (or append) finds the new version. -/
theorem get_version_go_set (key : String) (v : Int) :
    ∀ t : List Row, get_version_go key (set_version_go key v t) = v := by
  intro t
  induction t with
  | nil =>
      have hm : versMatch key [key, pyStr v] = true := by
        unfold versMatch cell
        simp
      simp only [set_version_go, get_version_go]
      rw [if_pos hm]
      have : cell [key, pyStr v] 1 = pyStr v := rfl
      rw [this, pyInt?_pyStr]
      rfl
  | cons r rs ih =>
      by_cases h : versMatch key r = true
      · have hs : set_version_go key v (r :: rs) = r.set 1 (pyStr v) :: rs := by
          simp only [set_version_go]
          rw [if_pos h]
        rw [hs]
        simp only [get_version_go]
        rw [if_pos (by rw [versMatch_set1]; exact h)]
        rw [cell_set_self r 1 (pyStr v) (by have := versMatch_length key r h; omega),
          pyInt?_pyStr]
        rfl
      · have hs : set_version_go key v (r :: rs) = r :: set_version_go key v rs := by
          simp only [set_version_go]
          rw [if_neg h]
        rw [hs]
        simp only [get_version_go]
        rw [if_neg h]
        exact ih

/-- `_get_version` after `_set_version` returns exactly the version written,
provided the sheet has its header row (which `_ensure_ws` guarantees). -/
theorem get_version_set_version (vers : WS) (key : String) (v : Int) (h : vers ≠ []) :
    get_version (set_version vers key v) key = v := by
  cases vers with
  | nil => exact absurd rfl h
  | cons hrow t =>
      have h1 : set_version (hrow :: t) key v = hrow :: set_version_go key v t := rfl
      have h2 : get_version (hrow :: set_version_go key v t) key =
          get_version_go key (set_version_go key v t) := rfl
      rw [h1, h2]
      exact get_version_go_set key v t

/-- `_set_version` never empties the sheet. -/
theorem set_version_ne_nil (vers : WS) (key : String) (v : Int) :
    set_version vers key v ≠ [] := by
  cases vers <;> simp [set_version]

/-! ## The reverse-order delete loop removes exactly the matching rows -/

/-- Deleting at the position right after a prefix removes that element. -/
theorem eraseIdx_append_middle (pre : List Row) (r : Row) (post : List Row) :
    (pre ++ r :: post).eraseIdx pre.length = pre ++ post := by
  induction pre with
  | nil => simp
  | cons x xs ih => simpa using ih

/-- Folding the deletions of the matching indices, taken in descending
order, over the sheet leaves the non-matching rows: `pre` is the already
scanned prefix that the remaining 1-based indices point past. -/
theorem find_rows_go_delete (key : String) :
    ∀ (t pre : List Row),
      (find_rows_go key t (pre.length + 1)).reverse.foldl ws_delete_row (pre ++ t)
        = pre ++ t.filter (fun r => !rowMatches r key) := by
  intro t
  induction t with
  | nil => intro pre; simp [find_rows_go]
  | cons r rs ih =>
      intro pre
      have hcons : (pre ++ [r]) ++ rs = pre ++ r :: rs := by simp
      have hlen : (pre ++ [r]).length + 1 = pre.length + 1 + 1 := by simp
      by_cases h : rowMatches r key = true
      · have hf : find_rows_go key (r :: rs) (pre.length + 1) =
            (pre.length + 1) :: find_rows_go key rs (pre.length + 1 + 1) := by
          simp only [find_rows_go]
          rw [if_pos h]
        rw [hf, List.reverse_cons, List.foldl_append]
        have hinner := ih (pre ++ [r])
        rw [hlen, hcons] at hinner
        rw [hinner]
        have hdel : ws_delete_row ((pre ++ [r]) ++
            rs.filter (fun r => !rowMatches r key)) (pre.length + 1) =
            pre ++ rs.filter (fun r => !rowMatches r key) := by
          unfold ws_delete_row
          have : (pre ++ [r]) ++ rs.filter (fun r => !rowMatches r key) =
              pre ++ r :: rs.filter (fun r => !rowMatches r key) := by simp
          rw [this]
          simpa using eraseIdx_append_middle pre r _
        simp only [List.foldl_cons, List.foldl_nil]
        rw [hdel]
        have hfil : (r :: rs).filter (fun r => !rowMatches r key) =
            rs.filter (fun r => !rowMatches r key) := by
          rw [List.filter_cons]
          simp [h]
        rw [hfil]
      · have hf : find_rows_go key (r :: rs) (pre.length + 1) =
            find_rows_go key rs (pre.length + 1 + 1) := by
          simp only [find_rows_go]
          rw [if_neg h]
        rw [hf]
        have hinner := ih (pre ++ [r])
        rw [hlen, hcons] at hinner
        rw [hinner]
        have hfil : (r :: rs).filter (fun r => !rowMatches r key) =
            r :: rs.filter (fun r => !rowMatches r key) := by
          rw [List.filter_cons]
          simp [h]
        rw [hfil]
        simp

/-- The delete loop of `save_date` keeps the header and filters out exactly
the rows of the saved key, preserving the order of all other rows. -/
theorem delete_rows_for_eq (h : Row) (t : List Row) (key : String) :
    delete_rows_for (h :: t) key = h :: t.filter (fun r => !rowMatches r key) := by
  unfold delete_rows_for
  have h1 : find_rows_for_date (h :: t) key = find_rows_go key t ([h].length + 1) := rfl
  rw [h1]
  have := find_rows_go_delete key t [h]
  simpa using this

/-- Rows surviving the delete loop do not match the key. -/
theorem delete_rows_for_no_match (h : Row) (t : List Row) (key : String) :
    ∀ r ∈ (delete_rows_for (h :: t) key).drop 1, rowMatches r key = false := by
  rw [delete_rows_for_eq]
  intro r hr
  simp only [List.drop_one, List.tail_cons] at hr
  have := List.of_mem_filter hr
  simpa using this

/-! ## Locating appended rows -/

/-- Scanning past a block of non-matching rows just advances the index. -/
theorem find_rows_go_append_none (key : String) :
    ∀ (a b : List Row) (idx : Nat), (∀ r ∈ a, rowMatches r key = false) →
      find_rows_go key (a ++ b) idx = find_rows_go key b (idx + a.length) := by
  intro a
  induction a with
  | nil => intro b idx _; simp
  | cons r rs ih =>
      intro b idx h
      have hr : rowMatches r key = false := h r (by simp)
      simp only [List.cons_append, find_rows_go]
      rw [if_neg (by simp [hr])]
      rw [List.append_eq, ih b (idx + 1) (fun x hx => h x (by simp [hx]))]
      congr 1
      simp
      omega

/-- Scanning a block of matching rows yields the contiguous index range. -/
theorem find_rows_go_all_match (key : String) :
    ∀ (b : List Row) (idx : Nat), (∀ r ∈ b, rowMatches r key = true) →
      find_rows_go key b idx = List.range' idx b.length := by
  intro b
  induction b with
  | nil => intro idx _; simp [find_rows_go]
  | cons r rs ih =>
      intro idx h
      simp only [find_rows_go, List.length_cons]
      rw [if_pos (h r (by simp)), List.range'_succ,
        ih (idx + 1) (fun x hx => h x (by simp [hx]))]

/-- Reading back a block of rows appended after a prefix, in index order. -/
theorem map_wsRow_range' :
    ∀ (l pre : List Row),
      (List.range' (pre.length + 1) l.length).map (fun i => wsRow (pre ++ l) i) = l := by
  intro l
  induction l with
  | nil => intro pre; simp
  | cons x xs ih =>
      intro pre
      rw [List.length_cons, List.range'_succ, List.map_cons]
      have hx : wsRow (pre ++ x :: xs) (pre.length + 1) = x := by
        unfold wsRow
        simp only [Nat.add_sub_cancel]
        rw [List.getD_append_right pre _ _ _ (Nat.le_refl _)]
        simp
      rw [hx]
      have ih' := ih (pre ++ [x])
      have hlen : (pre ++ [x]).length + 1 = pre.length + 1 + 1 := by simp
      have hcons : (pre ++ [x]) ++ xs = pre ++ x :: xs := by simp
      rw [hlen, hcons] at ih'
      rw [ih']

/-! ## Anatomy of the commit body -/

/-- Running a concatenation of write steps runs them in order. -/
theorem run_steps_append (s : Sheets) (a b : List (Sheets → Sheets)) :
    run_steps s (a ++ b) = run_steps (run_steps s a) b :=
  List.foldl_append _ _ a b

/-- The delete steps only rewrite the reservation sheet. -/
theorem run_resv_steps :
    ∀ (l : List Nat) (s : Sheets),
      run_steps s (l.map (fun i => fun t => { t with resv := ws_delete_row t.resv i })) =
        { s with resv := l.foldl ws_delete_row s.resv } := by
  intro l
  induction l with
  | nil => intro s; rfl
  | cons i is ih =>
      intro s
      simp only [List.map_cons, run_steps, List.foldl_cons]
      exact ih _

/-- After a passed version check, the body performs exactly the full-replace
write and the version bump. -/
theorem run_steps_body (s : Sheets) (key : String) (day : Day) (expected : Int)
    (rowNow : Nat) (h : get_version s.vers key = expected) :
    run_steps s (body_steps key day expected rowNow s) =
      { s with resv := saved_resv s.resv key day rowNow,
               vers := set_version s.vers key (get_version s.vers key + 1) } := by
  unfold body_steps
  rw [if_neg (by simp [h])]
  rw [run_steps_append, run_steps_append]
  rw [run_resv_steps]
  have hdel : (List.range 0).foldl ws_delete_row s.resv = s.resv := rfl
  by_cases he : (new_rows key day (iso rowNow)).isEmpty
  · rw [if_pos he]
    unfold run_steps saved_resv
    simp only [List.foldl_nil, List.foldl_cons]
    unfold delete_rows_for
    rw [if_pos he]
  · rw [if_neg he]
    unfold run_steps saved_resv
    simp only [List.foldl_nil, List.foldl_cons]
    unfold delete_rows_for
    rw [if_neg he]

/-- Running steps that each preserve the lock sheet preserves it. -/
theorem run_steps_lock_const :
    ∀ (fs : List (Sheets → Sheets)) (s : Sheets),
      (∀ f ∈ fs, ∀ t, (f t).lock = t.lock) → (run_steps s fs).lock = s.lock := by
  intro fs
  induction fs with
  | nil => intro s _; rfl
  | cons f fs ih =>
      intro s h
      unfold run_steps
      simp only [List.foldl_cons]
      have h2 := ih (f s) (fun g hg t => h g (by simp [hg]) t)
      unfold run_steps at h2
      rw [h2, h f (by simp) s]

/-- The body writes never touch the lock sheet: running any prefix of its
steps preserves it. -/
theorem run_steps_body_lock (s : Sheets) (key : String) (day : Day) (expected : Int)
    (rowNow : Nat) :
    ∀ n, (run_steps s ((body_steps key day expected rowNow s).take n)).lock = s.lock := by
  have hmem : ∀ f ∈ body_steps key day expected rowNow s, ∀ t, (f t).lock = t.lock := by
    intro f hf t
    unfold body_steps at hf
    split at hf
    · simp at hf
    · rcases List.mem_append.mp hf with h1 | h2
      · rcases List.mem_append.mp h1 with h3 | h4
        · obtain ⟨i, _, rfl⟩ := List.mem_map.mp h3
          rfl
        · split at h4
          · simp at h4
          · simp only [List.mem_singleton] at h4
            subst h4
            rfl
      · simp only [List.mem_singleton] at h2
        subst h2
        rfl
  intro n
  exact run_steps_lock_const _ s (fun f hf => hmem f (List.mem_of_mem_take hf))

/-- `save_date` with a failed lock acquisition: unfolds to the `LOCK_FAIL`
early return. -/
theorem save_date_eq_lockfail (s : Sheets) (key : String) (day : Day) (expected : Int)
    (user : String) (ttl : Nat) (env : SaveEnv) (l1 : WS) (sl : List Nat)
    (hacq : acquire_lock s.lock key user env.token ttl 5 env.acq = (none, l1, sl)) :
    save_date s key day expected user true ttl env =
      ((false, ("LOCK_FAIL")), { s with lock := l1 }) := by
  unfold save_date
  rw [if_pos rfl, hacq]

/-- `save_date` with an acquired lock: unfolds to the body followed by the
`finally` release. -/
theorem save_date_eq_locked (s : Sheets) (key : String) (day : Day) (expected : Int)
    (user : String) (ttl : Nat) (env : SaveEnv) (tok : String) (l1 : WS) (sl : List Nat)
    (hacq : acquire_lock s.lock key user env.token ttl 5 env.acq = (some tok, l1, sl)) :
    save_date s key day expected user true ttl env =
      ((save_body { s with lock := l1 } key day expected env.rowNow).1,
        { (save_body { s with lock := l1 } key day expected env.rowNow).2 with
            lock := release_lock
              (save_body { s with lock := l1 } key day expected env.rowNow).2.lock
              key tok env.relNow }) := by
  unfold save_date
  rw [if_pos rfl, hacq]

/-- `save_date` without locking is just the body. -/
theorem save_date_eq_nolock (s : Sheets) (key : String) (day : Day) (expected : Int)
    (user : String) (ttl : Nat) (env : SaveEnv) :
    save_date s key day expected user false ttl env =
      save_body s key day expected env.rowNow := by
  unfold save_date
  rw [if_neg (by simp)]

/-- The body on a stale expected version: conflict, no writes. -/
theorem save_body_eq_conflict (s : Sheets) (key : String) (day : Day) (expected : Int)
    (rowNow : Nat) (h : get_version s.vers key ≠ expected) :
    save_body s key day expected rowNow = ((false, ("VERSION_CONFLICT")), s) := by
  unfold save_body
  rw [if_pos h]

/-- The body on a matching expected version: success, full replace, bump. -/
theorem save_body_eq_success (s : Sheets) (key : String) (day : Day) (expected : Int)
    (rowNow : Nat) (h : get_version s.vers key = expected) :
    save_body s key day expected rowNow =
      ((true, ("")),
        { s with resv := saved_resv s.resv key day rowNow,
                 vers := set_version s.vers key (get_version s.vers key + 1) }) := by
  unfold save_body
  rw [if_neg (by simp [h])]
  rw [run_steps_body s key day expected rowNow h]

/-- Trichotomy of one `save_date` call: lock failure (no data writes), a
version conflict (no data writes), or success (full replace and bump). -/
theorem save_date_cases (s : Sheets) (key : String) (day : Day) (expected : Int)
    (user : String) (use_lock : Bool) (ttl : Nat) (env : SaveEnv) :
    ((save_date s key day expected user use_lock ttl env).1 = (false, ("LOCK_FAIL")) ∧
      (save_date s key day expected user use_lock ttl env).2.resv = s.resv ∧
      (save_date s key day expected user use_lock ttl env).2.vers = s.vers)
    ∨ (get_version s.vers key ≠ expected ∧
        (save_date s key day expected user use_lock ttl env).1 = (false, ("VERSION_CONFLICT")) ∧
        (save_date s key day expected user use_lock ttl env).2.resv = s.resv ∧
        (save_date s key day expected user use_lock ttl env).2.vers = s.vers)
    ∨ (get_version s.vers key = expected ∧
        (save_date s key day expected user use_lock ttl env).1 = (true, ("")) ∧
        (save_date s key day expected user use_lock ttl env).2.resv =
          saved_resv s.resv key day env.rowNow ∧
        (save_date s key day expected user use_lock ttl env).2.vers =
          set_version s.vers key (get_version s.vers key + 1)) := by
  cases use_lock with
  | false =>
      rw [save_date_eq_nolock]
      by_cases hv : get_version s.vers key = expected
      · right; right
        rw [save_body_eq_success s key day expected env.rowNow hv]
        exact ⟨hv, rfl, rfl, rfl⟩
      · right; left
        rw [save_body_eq_conflict s key day expected env.rowNow hv]
        exact ⟨hv, rfl, rfl, rfl⟩
  | true =>
      rcases hacq : acquire_lock s.lock key user env.token ttl 5 env.acq with ⟨tk, l1, sl⟩
      cases tk with
      | none =>
          left
          rw [save_date_eq_lockfail s key day expected user ttl env l1 sl hacq]
          exact ⟨rfl, rfl, rfl⟩
      | some tok =>
          rw [save_date_eq_locked s key day expected user ttl env tok l1 sl hacq]
          by_cases hv : get_version s.vers key = expected
          · right; right
            rw [save_body_eq_success { s with lock := l1 } key day expected env.rowNow hv]
            exact ⟨hv, rfl, rfl, rfl⟩
          · right; left
            rw [save_body_eq_conflict { s with lock := l1 } key day expected env.rowNow hv]
            exact ⟨hv, rfl, rfl, rfl⟩

/-! ## Lock record update lemmas -/

/-- Padding never changes what a cell reads as. -/
theorem cell_padTo (r : Row) (n i : Nat) : cell (padTo r n) i = cell r i := by
  unfold cell padTo
  by_cases h : i < r.length
  · rw [List.getD_append _ _ _ _ h]
  · rw [List.getD_append_right _ _ _ _ (by omega)]
    rw [List.getD_eq_getElem?_getD, List.getElem?_replicate]
    rw [List.getD_eq_getElem?_getD, List.getElem?_eq_none (by omega)]
    split <;> rfl

/-- The padded row has at least `n` cells. -/
theorem padTo_length (r : Row) (n : Nat) : n ≤ (padTo r n).length := by
  unfold padTo
  rw [List.length_append, List.length_replicate]
  omega

/-- The B–D update has at least four cells. -/
theorem updateBD_length (r : Row) (b c d : String) : 4 ≤ (updateBD r b c d).length := by
  unfold updateBD
  simp only [List.length_set]
  exact padTo_length r 4

/-- The B–D update leaves the key column unchanged. -/
theorem cell_updateBD_zero (r : Row) (b c d : String) :
    cell (updateBD r b c d) 0 = cell r 0 := by
  unfold updateBD
  rw [cell_set_ne _ _ _ _ (by omega), cell_set_ne _ _ _ _ (by omega),
    cell_set_ne _ _ _ _ (by omega), cell_padTo]

/-- The B–D update stores its token. -/
theorem cell_updateBD_one (r : Row) (b c d : String) :
    cell (updateBD r b c d) 1 = b := by
  unfold updateBD
  rw [cell_set_ne _ _ _ _ (by omega), cell_set_ne _ _ _ _ (by omega),
    cell_set_self _ _ _ (by have := padTo_length r 4; omega)]

/-- The B–D update stores its holder. -/
theorem cell_updateBD_two (r : Row) (b c d : String) :
    cell (updateBD r b c d) 2 = c := by
  unfold updateBD
  rw [cell_set_ne _ _ _ _ (by omega),
    cell_set_self _ _ _ (by have := padTo_length r 4; simp only [List.length_set]; omega)]

/-- The B–D update stores its expiry. -/
theorem cell_updateBD_three (r : Row) (b c d : String) :
    cell (updateBD r b c d) 3 = d := by
  unfold updateBD
  rw [cell_set_self _ _ _
    (by have := padTo_length r 4; simp only [List.length_set]; omega)]

/-- An updated lock row still matches its key row scan. -/
theorem rowMatches_updateBD (r : Row) (b c d : String) (key : String) :
    rowMatches (updateBD r b c d) key = (cell r 0 == key) := by
  unfold rowMatches
  rw [cell_updateBD_zero]
  have : (updateBD r b c d).isEmpty = false := by
    have := updateBD_length r b c d
    cases h : updateBD r b c d with
    | nil => rw [h] at this; simp at this
    | cons x xs => rfl
  rw [this]
  rfl

/-! ## Lock row scan lemmas -/

/-- What a successful lock row scan returns: a matching row at the found
index, every earlier data row failing the match. -/
theorem lock_row_index_go_spec (key : String) :
    ∀ (t : List Row) (idx j : Nat), lock_row_index_go key t idx = some j →
      idx ≤ j ∧ j - idx < t.length ∧ rowMatches (t.getD (j - idx) []) key = true ∧
        ∀ m, m < j - idx → rowMatches (t.getD m []) key = false := by
  intro t
  induction t with
  | nil => intro idx j h; exact absurd h (by simp [lock_row_index_go])
  | cons r rs ih =>
      intro idx j h
      simp only [lock_row_index_go] at h
      by_cases hr : rowMatches r key = true
      · rw [if_pos hr] at h
        injection h with h
        subst h
        refine ⟨Nat.le_refl _, by simp, by simpa using hr, ?_⟩
        intro m hm
        omega
      · rw [if_neg hr] at h
        obtain ⟨h1, h2, h3, h4⟩ := ih (idx + 1) j h
        refine ⟨by omega, by simp; omega, ?_, ?_⟩
        · have : j - idx = (j - (idx + 1)) + 1 := by omega
          rw [this]
          simpa using h3
        · intro m hm
          cases m with
          | zero => simpa using eq_false_of_ne_true hr
          | succ m' =>
              have : m' < j - (idx + 1) := by omega
              simpa using h4 m' this

/-- Replacing the found row with another matching row does not move the
first match. -/
theorem lock_row_index_go_set (key : String) :
    ∀ (t : List Row) (idx j : Nat) (r' : Row), lock_row_index_go key t idx = some j →
      rowMatches r' key = true →
      lock_row_index_go key (t.set (j - idx) r') idx = some j := by
  intro t
  induction t with
  | nil => intro idx j r' h _; exact absurd h (by simp [lock_row_index_go])
  | cons r rs ih =>
      intro idx j r' h hr'
      simp only [lock_row_index_go] at h
      by_cases hr : rowMatches r key = true
      · rw [if_pos hr] at h
        injection h with h
        subst h
        simp only [Nat.sub_self, List.set_cons_zero, lock_row_index_go]
        rw [if_pos hr']
      · rw [if_neg hr] at h
        have hge := (lock_row_index_go_spec key rs (idx + 1) j h).1
        have hsub : j - idx = (j - (idx + 1)) + 1 := by omega
        rw [hsub, List.set_cons_succ]
        simp only [lock_row_index_go]
        rw [if_neg hr]
        exact ih (idx + 1) j r' h hr'

/-- The row a successful lock scan points at matches, and its index is a
real data row index. -/
theorem lock_row_index_wsRow (lock : WS) (key : String) (i : Nat)
    (h : lock_row_index lock key = some i) :
    2 ≤ i ∧ i - 1 < lock.length ∧ rowMatches (wsRow lock i) key = true := by
  cases lock with
  | nil => simp [lock_row_index] at h
  | cons h0 t =>
      have h' : lock_row_index_go key t 2 = some i := h
      obtain ⟨h1, h2, h3, _⟩ := lock_row_index_go_spec key t 2 i h'
      refine ⟨h1, by simp; omega, ?_⟩
      have hw : wsRow (h0 :: t) i = t.getD (i - 2) [] := by
        unfold wsRow
        have : i - 1 = (i - 2) + 1 := by omega
        rw [this, List.getD_cons_succ]
      rw [hw]
      exact h3

/-- Replacing the found lock row with a matching row keeps its index. -/
theorem lock_row_index_set (lock : WS) (key : String) (i : Nat) (r' : Row)
    (h : lock_row_index lock key = some i) (hr : rowMatches r' key = true) :
    lock_row_index (lock.set (i - 1) r') key = some i := by
  cases lock with
  | nil => simp [lock_row_index] at h
  | cons h0 t =>
      have h' : lock_row_index_go key t 2 = some i := h
      have hge := (lock_row_index_go_spec key t 2 i h').1
      have hsub : i - 1 = (i - 2) + 1 := by omega
      rw [hsub, List.set_cons_succ]
      have : lock_row_index (h0 :: t.set (i - 2) r') key =
          lock_row_index_go key (t.set (i - 2) r') 2 := rfl
      rw [this]
      exact lock_row_index_go_set key t 2 i r' h' hr

/-- Unpacks the confirming re-read: the stored record at the found index
carries the freshly written token. -/
theorem acquire_check_spec (s : WS) (key token : String)
    (h : acquire_check s key token = true) :
    ∃ j, lock_row_index s key = some j ∧ 4 ≤ (wsRow s j).length ∧
      cell (wsRow s j) 0 = key ∧ cell (wsRow s j) 1 = token := by
  unfold acquire_check at h
  split at h
  · exact absurd h (by simp)
  · rename_i j hj
    simp only [Bool.and_eq_true, decide_eq_true_eq, beq_iff_eq] at h
    exact ⟨j, hj, h.1.1, h.1.2, h.2⟩

/-- `acquire_lock` hands back only its own token, and only when the
confirming re-read saw exactly that token stored for the key. -/
theorem acquire_go_success (key user token : String) (ttl : Nat) (env : AcqEnv) :
    ∀ (fuel k : Nat) (s : WS) (sleeps : List Nat) (tok : String) (l' : WS) (sl' : List Nat),
      acquire_go key user token ttl env k fuel s sleeps = (some tok, l', sl') →
      tok = token ∧ acquire_check l' key token = true := by
  intro fuel
  induction fuel with
  | zero =>
      intro k s sleeps tok l' sl' h
      exact absurd h (by simp [acquire_go])
  | succ n ih =>
      intro k s sleeps tok l' sl' h
      simp only [acquire_go] at h
      repeat' split at h
      all_goals
        first
        | exact ih _ _ _ _ _ _ h
        | (injection h with ha hrest
           injection hrest with hb hc
           injection ha with ha
           subst ha
           subst hb
           exact ⟨rfl, by assumption⟩)

/-- Releasing right after a confirmed acquisition tombstones the record:
the stored token cell becomes empty. -/
theorem release_after_check (l : WS) (key tok : String) (now : Nat)
    (h : acquire_check l key tok = true) :
    ∃ j, release_lock l key tok now =
        l.set (j - 1) (updateBD (wsRow l j) ("") ("") (iso (now - 1))) ∧
      lock_row_index (release_lock l key tok now) key = some j ∧
      cell (wsRow (release_lock l key tok now) j) 1 = ("") := by
  obtain ⟨j, hj, hlen, h0, h1⟩ := acquire_check_spec l key tok h
  obtain ⟨hj2, hjlt, _⟩ := lock_row_index_wsRow l key j hj
  have hcond : (decide ((wsRow l j).length ≥ 2) && (cell (wsRow l j) 1 == tok)) = true := by
    simp only [Bool.and_eq_true, decide_eq_true_eq, beq_iff_eq]
    exact ⟨by omega, h1⟩
  have hrel : release_lock l key tok now =
      l.set (j - 1) (updateBD (wsRow l j) ("") ("") (iso (now - 1))) := by
    unfold release_lock
    rw [hj]
    simp only [hcond, if_true]
  have hmatch : rowMatches (updateBD (wsRow l j) ("") ("") (iso (now - 1))) key = true := by
    rw [rowMatches_updateBD, h0]
    simp
  have hidx : lock_row_index (release_lock l key tok now) key = some j := by
    rw [hrel]
    exact lock_row_index_set l key j _ hj hmatch
  refine ⟨j, hrel, hidx, ?_⟩
  rw [hrel]
  have hws : wsRow (l.set (j - 1) (updateBD (wsRow l j) ("") ("") (iso (now - 1)))) j =
      updateBD (wsRow l j) ("") ("") (iso (now - 1)) := by
    unfold wsRow
    rw [List.getD_eq_getElem?_getD, List.getElem?_set_self hjlt]
    rfl
  rw [hws, cell_updateBD_one]

set_option maxRecDepth 4000 in
/-- While a different, still-valid token holds the key, every attempt takes
the sleep-and-retry branch: `acquire_lock` writes nothing, sleeps
`backoff * 1, backoff * 2, ...` and finally gives up with `None`. -/
theorem acquire_go_blocked (key user token : String) (ttl : Nat) (env : AcqEnv)
    (s : WS) (i : Nat) (T : Nat)
    (hpre : ∀ k, env.pre k s = s)
    (hrow : lock_row_index s key = some i)
    (htok : pyStrip (cell (wsRow s i) 1) ≠ ("" : String))
    (hne : pyStrip (cell (wsRow s i) 1) ≠ token)
    (hexp : parseIso (pyStrip (cell (wsRow s i) 3)) = some T) :
    ∀ (fuel k : Nat) (sleeps : List Nat), (∀ k', k' < k + fuel → env.nowAt k' < T) →
      acquire_go key user token ttl env k fuel s sleeps =
        (none, s, sleeps ++ List.range' (k + 1) fuel) := by
  have hcurne : pyStrip (cell (wsRow s i) 3) ≠ ("" : String) := by
    intro he
    rw [he, parseIso_empty] at hexp
    exact Option.noConfusion hexp
  have hbeq : (pyStrip (cell (wsRow s i) 3) == ("")) = false :=
    beq_eq_false_iff_ne.mpr hcurne
  have htokb : (pyStrip (cell (wsRow s i) 1) != ("")) = true := bne_iff_ne.mpr htok
  have hneb : (pyStrip (cell (wsRow s i) 1) != token) = true := bne_iff_ne.mpr hne
  intro fuel
  induction fuel with
  | zero => intro k sleeps _; simp [acquire_go]
  | succ n ih =>
      intro k sleeps hT
      have hlt : env.nowAt k < T := hT k (by omega)
      have hexpired :
          (if (pyStrip (cell (wsRow s i) 3) == ("")) = true then true
           else match parseIso (pyStrip (cell (wsRow s i) 3)) with
                | some t => decide (t ≤ env.nowAt k)
                | none => true) = false := by
        rw [if_neg (by simp [hbeq]), hexp]
        show decide (T ≤ env.nowAt k) = false
        exact decide_eq_false (by omega)
      simp only [acquire_go, hpre, hrow]
      simp only [hexpired, htokb, hneb, Bool.not_false, Bool.and_true, Bool.true_and,
        Bool.and_self, if_true]
      rw [ih (k + 1) (sleeps ++ [k + 1]) (fun k' hk => hT k' (by omega))]
      rw [List.range'_succ, List.append_assoc]
      rfl

/-- An `iso` timestamp is never empty. -/
theorem iso_ne_empty (t : Nat) : iso t ≠ ("") := by
  intro h
  have h2 : (iso t).toList = ("" : String).toList := congrArg String.toList h
  rw [show (iso t).toList = pyDigits t ++ ['Z'] from rfl,
    show ("" : String).toList = [] from rfl] at h2
  simp at h2

/-- One attempt against a lock record whose expiry has passed: the caller
steals the record and the confirming re-read returns its token, with no
competing writer. -/
theorem acquire_steal_expired (key user tok0 u0 token : String) (hdr : Row)
    (e now ttl : Nat) (he : e ≤ now) :
    (acquire_lock [hdr, [key, tok0, u0, iso e]] key user token ttl 1 (idEnv now)).1 =
      some token := by
  have hidx : lock_row_index [hdr, [key, tok0, u0, iso e]] key = some 2 := by
    have : lock_row_index [hdr, [key, tok0, u0, iso e]] key =
        lock_row_index_go key [[key, tok0, u0, iso e]] 2 := rfl
    rw [this]
    simp only [lock_row_index_go]
    rw [if_pos (by simp [rowMatches, cell])]
  have hws : wsRow [hdr, [key, tok0, u0, iso e]] 2 = [key, tok0, u0, iso e] := rfl
  have hc3 : cell [key, tok0, u0, iso e] 3 = iso e := rfl
  have hexpired :
      (if (pyStrip (cell [key, tok0, u0, iso e] 3) == ("")) = true then true
       else match parseIso (pyStrip (cell [key, tok0, u0, iso e] 3)) with
            | some t => decide (t ≤ now)
            | none => true) = true := by
    rw [hc3, pyStrip_iso]
    rw [if_neg (by simp [beq_eq_false_iff_ne.mpr (iso_ne_empty e)]), parseIso_iso]
    show decide (e ≤ now) = true
    exact decide_eq_true he
  unfold acquire_lock
  simp only [acquire_go, idEnv, hidx, hws, hexpired]
  rw [if_neg (by simp)]
  have hcheck : acquire_check
      (List.set [hdr, [key, tok0, u0, iso e]] (2 - 1)
        (updateBD [key, tok0, u0, iso e] token user (iso (now + ttl)))) key token = true := by
    have hset : List.set [hdr, [key, tok0, u0, iso e]] (2 - 1)
        (updateBD [key, tok0, u0, iso e] token user (iso (now + ttl))) =
        [hdr, updateBD [key, tok0, u0, iso e] token user (iso (now + ttl))] := by
      simp
    rw [hset]
    have hm : rowMatches (updateBD [key, tok0, u0, iso e] token user (iso (now + ttl))) key
        = true := by
      rw [rowMatches_updateBD]
      simp [cell]
    have hidx2 : lock_row_index
        [hdr, updateBD [key, tok0, u0, iso e] token user (iso (now + ttl))] key = some 2 := by
      have : lock_row_index
          [hdr, updateBD [key, tok0, u0, iso e] token user (iso (now + ttl))] key =
          lock_row_index_go key [updateBD [key, tok0, u0, iso e] token user (iso (now + ttl))]
            2 := rfl
      rw [this]
      simp only [lock_row_index_go]
      rw [if_pos hm]
    simp only [acquire_check, hidx2]
    have hws2 : wsRow [hdr, updateBD [key, tok0, u0, iso e] token user (iso (now + ttl))] 2 =
        updateBD [key, tok0, u0, iso e] token user (iso (now + ttl)) := rfl
    rw [hws2]
    simp only [Bool.and_eq_true, decide_eq_true_eq, beq_iff_eq]
    refine ⟨⟨updateBD_length _ _ _ _, ?_⟩, ?_⟩
    · rw [cell_updateBD_zero]
      rfl
    · rw [cell_updateBD_one]
  simp only [hcheck, if_true]

/-- `release_lock` with the currently stored token always tombstones the
record, whatever its expiry: token equality is the only test the source
performs. -/
theorem release_matching_tombstones (lock : WS) (key tok : String) (now : Nat) (i : Nat)
    (hidx : lock_row_index lock key = some i)
    (hlen : 2 ≤ (wsRow lock i).length)
    (htok : cell (wsRow lock i) 1 = tok) :
    release_lock lock key tok now =
      lock.set (i - 1) (updateBD (wsRow lock i) ("") ("") (iso (now - 1))) ∧
    cell (wsRow (release_lock lock key tok now) i) 1 = ("") ∧
    cell (wsRow (release_lock lock key tok now) i) 2 = ("") ∧
    cell (wsRow (release_lock lock key tok now) i) 3 = iso (now - 1) := by
  obtain ⟨hge, hlt, hmat⟩ := lock_row_index_wsRow lock key i hidx
  have hcond : (decide ((wsRow lock i).length ≥ 2) && (cell (wsRow lock i) 1 == tok)) = true := by
    simp only [Bool.and_eq_true, decide_eq_true_eq, beq_iff_eq]
    exact ⟨hlen, htok⟩
  have hrel : release_lock lock key tok now =
      lock.set (i - 1) (updateBD (wsRow lock i) ("") ("") (iso (now - 1))) := by
    unfold release_lock
    rw [hidx]
    simp only [hcond, if_true]
  have hws : wsRow (lock.set (i - 1) (updateBD (wsRow lock i) ("") ("") (iso (now - 1)))) i =
      updateBD (wsRow lock i) ("") ("") (iso (now - 1)) := by
    unfold wsRow
    rw [List.getD_eq_getElem?_getD, List.getElem?_set_self hlt]
    rfl
  refine ⟨hrel, ?_, ?_, ?_⟩ <;> rw [hrel, hws]
  · rw [cell_updateBD_one]
  · rw [cell_updateBD_two]
  · rw [cell_updateBD_three]

/-- `release_lock` is a no-op when no record exists for the key. -/
theorem release_no_record (lock : WS) (key tok : String) (now : Nat)
    (hidx : lock_row_index lock key = none) :
    release_lock lock key tok now = lock := by
  unfold release_lock
  rw [hidx]

/-- `release_lock` is a no-op when the stored token differs. -/
theorem release_other_token (lock : WS) (key tok : String) (now : Nat) (i : Nat)
    (hidx : lock_row_index lock key = some i)
    (hne : ¬(2 ≤ (wsRow lock i).length ∧ cell (wsRow lock i) 1 = tok)) :
    release_lock lock key tok now = lock := by
  simp only [release_lock, hidx]
  rw [if_neg (by simp only [Bool.and_eq_true, decide_eq_true_eq, beq_iff_eq]; exact hne)]

/-- The body never touches the lock sheet. -/
theorem save_body_lock (s : Sheets) (key : String) (day : Day) (expected : Int)
    (rowNow : Nat) : (save_body s key day expected rowNow).2.lock = s.lock := by
  by_cases hv : get_version s.vers key = expected
  · rw [save_body_eq_success s key day expected rowNow hv]
  · rw [save_body_eq_conflict s key day expected rowNow hv]

/-- `save_date_exc` with an acquired lock and a mid-commit error: the error
propagates and the `finally` clause still runs the release on the partially
written state. -/
theorem save_date_exc_eq_raise (s : Sheets) (key : String) (day : Day) (expected : Int)
    (user : String) (ttl : Nat) (env : SaveEnv) (n : Nat) (err : String)
    (tok : String) (l1 : WS) (sl : List Nat)
    (hacq : acquire_lock s.lock key user env.token ttl 5 env.acq = (some tok, l1, sl)) :
    save_date_exc s key day expected user true ttl env (some n) err =
      (Except.error err,
        { run_steps { s with lock := l1 }
            ((body_steps key day expected env.rowNow { s with lock := l1 }).take n) with
          lock := release_lock
            (run_steps { s with lock := l1 }
              ((body_steps key day expected env.rowNow { s with lock := l1 }).take n)).lock
            key tok env.relNow }) := by
  unfold save_date_exc
  rw [if_pos rfl, hacq]

/-! ## The claims -/

/-- Claim C1: provided the call does not fail at lock acquisition, a commit
`save_date(key, state, expectedVersion=V, ...)` succeeds iff the version
stored at check time equals `V`; otherwise it returns
`(false, "VERSION_CONFLICT")` and leaves both the reservation rows and the
stored versions exactly as they were before the call. -/
theorem save_date_occ_gate (s : Sheets) (key : String) (day : Day) (expected : Int)
    (user : String) (use_lock : Bool) (ttl : Nat) (env : SaveEnv)
    (hreach : (save_date s key day expected user use_lock ttl env).1.2 ≠ ("LOCK_FAIL")) :
    ((save_date s key day expected user use_lock ttl env).1.1 = true ↔
        get_version s.vers key = expected) ∧
    (get_version s.vers key ≠ expected →
      (save_date s key day expected user use_lock ttl env).1 = (false, ("VERSION_CONFLICT")) ∧
      (save_date s key day expected user use_lock ttl env).2.resv = s.resv ∧
      (save_date s key day expected user use_lock ttl env).2.vers = s.vers) := by
  rcases save_date_cases s key day expected user use_lock ttl env with h | h | h
  · exact absurd (by rw [h.1]) hreach
  · obtain ⟨hv, hres, hresv, hvers⟩ := h
    refine ⟨⟨fun hh => ?_, fun hh => absurd hh hv⟩, fun _ => ⟨hres, hresv, hvers⟩⟩
    rw [hres] at hh
    exact absurd hh (by simp)
  · obtain ⟨hv, hres, hresv, hvers⟩ := h
    refine ⟨⟨fun _ => hv, fun _ => by rw [hres]⟩, fun hh => absurd hv hh⟩

/-- Witness for C1 at a concrete store: a no-lock commit at the correct
expected version succeeds, and at a stale one conflicts without writing. -/
theorem save_date_occ_gate_witness :
    ((save_date ⟨[["h"]], [["h"]], [["h"]]⟩ ("d") [] 0 ("u") false 30
        ⟨("t"), idEnv 0, 0, 0⟩).1.2 ≠ ("LOCK_FAIL")) ∧
    (((save_date ⟨[["h"]], [["h"]], [["h"]]⟩ ("d") [] 0 ("u") false 30
        ⟨("t"), idEnv 0, 0, 0⟩).1.1 = true ↔
        get_version (⟨[["h"]], [["h"]], [["h"]]⟩ : Sheets).vers ("d") = 0) ∧
      (get_version (⟨[["h"]], [["h"]], [["h"]]⟩ : Sheets).vers ("d") ≠ 0 →
        (save_date ⟨[["h"]], [["h"]], [["h"]]⟩ ("d") [] 0 ("u") false 30
          ⟨("t"), idEnv 0, 0, 0⟩).1 = (false, ("VERSION_CONFLICT")) ∧
        (save_date ⟨[["h"]], [["h"]], [["h"]]⟩ ("d") [] 0 ("u") false 30
          ⟨("t"), idEnv 0, 0, 0⟩).2.resv = (⟨[["h"]], [["h"]], [["h"]]⟩ : Sheets).resv ∧
        (save_date ⟨[["h"]], [["h"]], [["h"]]⟩ ("d") [] 0 ("u") false 30
          ⟨("t"), idEnv 0, 0, 0⟩).2.vers = (⟨[["h"]], [["h"]], [["h"]]⟩ : Sheets).vers)) :=
  ⟨by decide, save_date_occ_gate ⟨[["h"]], [["h"]], [["h"]]⟩ ("d") [] 0 ("u") false 30
    ⟨("t"), idEnv 0, 0, 0⟩ (by decide)⟩

/-- Claim C2: over any sequence of commit attempts against one key, the
stored version grows by exactly the number of successful commits; failed
attempts (`LOCK_FAIL` or `VERSION_CONFLICT`) never change it.  The header
row of the versions sheet, which `_ensure_ws` guarantees, is assumed. -/
theorem version_monotonicity (key : String) :
    ∀ (cs : List CallParams) (s : Sheets), s.vers ≠ [] →
      get_version (run_calls key s cs).1.vers key =
        get_version s.vers key + (run_calls key s cs).2 := by
  intro cs
  induction cs with
  | nil => intro s _; simp [run_calls]
  | cons cp cps ih =>
      intro s hne
      simp only [run_calls]
      rcases save_date_cases s key cp.day cp.expected cp.user cp.use_lock cp.ttl_sec cp.env
        with h | h | h
      · obtain ⟨hres, _, hvers⟩ := h
        rw [if_neg (by rw [hres]; simp)]
        rw [ih _ (by rw [hvers]; exact hne), hvers]
        omega
      · obtain ⟨_, hres, _, hvers⟩ := h
        rw [if_neg (by rw [hres]; simp)]
        rw [ih _ (by rw [hvers]; exact hne), hvers]
        omega
      · obtain ⟨_, hres, _, hvers⟩ := h
        rw [if_pos (by rw [hres])]
        rw [ih _ (by rw [hvers]; exact set_version_ne_nil _ _ _), hvers,
          get_version_set_version _ _ _ hne]
        omega

/-- Witness for C2: two successful commits and one stale attempt move the
version from 0 to 2. -/
theorem version_monotonicity_witness :
    ((⟨[["h"]], [["h"]], [["h"]]⟩ : Sheets).vers ≠ []) ∧
    get_version (run_calls ("d") ⟨[["h"]], [["h"]], [["h"]]⟩
        [⟨[], 0, ("u"), false, 30, ⟨("t"), idEnv 0, 0, 0⟩⟩,
         ⟨[], 0, ("u"), false, 30, ⟨("t"), idEnv 0, 0, 0⟩⟩,
         ⟨[], 1, ("u"), false, 30, ⟨("t"), idEnv 0, 0, 0⟩⟩]).1.vers ("d") =
      get_version (⟨[["h"]], [["h"]], [["h"]]⟩ : Sheets).vers ("d") +
        (run_calls ("d") ⟨[["h"]], [["h"]], [["h"]]⟩
          [⟨[], 0, ("u"), false, 30, ⟨("t"), idEnv 0, 0, 0⟩⟩,
           ⟨[], 0, ("u"), false, 30, ⟨("t"), idEnv 0, 0, 0⟩⟩,
           ⟨[], 1, ("u"), false, 30, ⟨("t"), idEnv 0, 0, 0⟩⟩]).2 :=
  ⟨by decide, version_monotonicity ("d") _ _ (by decide)⟩

/-- Claim C7: when lock acquisition fails, `save_date` returns
`(false, "LOCK_FAIL")` and performs no data writes: reservations and
versions are exactly as before the call. -/
theorem save_date_lock_fail (s : Sheets) (key : String) (day : Day) (expected : Int)
    (user : String) (ttl : Nat) (env : SaveEnv) (l1 : WS) (sl : List Nat)
    (hacq : acquire_lock s.lock key user env.token ttl 5 env.acq = (none, l1, sl)) :
    (save_date s key day expected user true ttl env).1 = (false, ("LOCK_FAIL")) ∧
    (save_date s key day expected user true ttl env).2.resv = s.resv ∧
    (save_date s key day expected user true ttl env).2.vers = s.vers := by
  have h := save_date_eq_lockfail s key day expected user ttl env l1 sl hacq
  exact ⟨by rw [h], by rw [h], by rw [h]⟩

/-- Witness for C7: a foreign valid token blocks all five attempts; the
commit reports `LOCK_FAIL` and writes nothing. -/
theorem save_date_lock_fail_witness :
    (acquire_lock [["h"], [("d"), ("other"), ("bob"), iso 1000]] ("d") ("u") ("t") 30 5
        (idEnv 0) =
      (none, [["h"], [("d"), ("other"), ("bob"), iso 1000]], [1, 2, 3, 4, 5])) ∧
    ((save_date ⟨[["h"]], [["h"]], [["h"], [("d"), ("other"), ("bob"), iso 1000]]⟩ ("d") []
        0 ("u") true 30 ⟨("t"), idEnv 0, 0, 0⟩).1 = (false, ("LOCK_FAIL")) ∧
      (save_date ⟨[["h"]], [["h"]], [["h"], [("d"), ("other"), ("bob"), iso 1000]]⟩ ("d") []
        0 ("u") true 30 ⟨("t"), idEnv 0, 0, 0⟩).2.resv =
        (⟨[["h"]], [["h"]], [["h"], [("d"), ("other"), ("bob"), iso 1000]]⟩ : Sheets).resv ∧
      (save_date ⟨[["h"]], [["h"]], [["h"], [("d"), ("other"), ("bob"), iso 1000]]⟩ ("d") []
        0 ("u") true 30 ⟨("t"), idEnv 0, 0, 0⟩).2.vers =
        (⟨[["h"]], [["h"]], [["h"], [("d"), ("other"), ("bob"), iso 1000]]⟩ : Sheets).vers) :=
  ⟨by decide, save_date_lock_fail ⟨[["h"]], [["h"]], [["h"], [("d"), ("other"), ("bob"),
    iso 1000]]⟩ ("d") [] 0 ("u") 30 ⟨("t"), idEnv 0, 0, 0⟩
    [["h"], [("d"), ("other"), ("bob"), iso 1000]] [1, 2, 3, 4, 5] (by decide)⟩

/-- Claim C10: `_get_version` is total over malformed storage: a version
cell that does not parse as an int reads as version 0, exactly like an
absent key, so a commit with `expectedVersion = 0` succeeds and overwrites
the malformed cell with `1`. -/
theorem get_version_malformed (s : Sheets) (key c : String) (hdr : Row) (tail : List Row)
    (day : Day) (user : String) (ttl : Nat) (env : SaveEnv)
    (hvers : s.vers = hdr :: [key, c] :: tail)
    (hc : pyInt? c = none) :
    get_version s.vers key = 0 ∧
    (save_date s key day 0 user false ttl env).1 = (true, ("")) ∧
    (save_date s key day 0 user false ttl env).2.vers = hdr :: [key, pyStr 1] :: tail ∧
    pyStr 1 = ("1") := by
  have hget : get_version s.vers key = 0 := by
    rw [hvers]
    have h1 : get_version (hdr :: [key, c] :: tail) key =
        get_version_go key ([key, c] :: tail) := rfl
    rw [h1]
    simp only [get_version_go]
    rw [if_pos (by unfold versMatch cell; simp)]
    have : cell [key, c] 1 = c := rfl
    rw [this, hc]
    rfl
  refine ⟨hget, ?_, ?_, by decide⟩
  · rw [save_date_eq_nolock, save_body_eq_success s key day 0 env.rowNow hget]
  · rw [save_date_eq_nolock, save_body_eq_success s key day 0 env.rowNow hget]
    show set_version s.vers key (get_version s.vers key + 1) = _
    rw [hget, hvers]
    have h1 : set_version (hdr :: [key, c] :: tail) key (0 + 1) =
        hdr :: set_version_go key (0 + 1) ([key, c] :: tail) := rfl
    rw [h1]
    simp only [set_version_go]
    rw [if_pos (by unfold versMatch cell; simp)]
    rfl

/-- Witness for C10: the malformed cell `"abc"` reads as version 0 and is
overwritten with `"1"` by a successful commit at expected version 0. -/
theorem get_version_malformed_witness :
    ((⟨[["h"]], [["date", "version"], [("d"), ("abc")]], [["h"]]⟩ : Sheets).vers =
      ["date", "version"] :: [("d"), ("abc")] :: []) ∧
    pyInt? ("abc") = none ∧
    (get_version (⟨[["h"]], [["date", "version"], [("d"), ("abc")]], [["h"]]⟩ : Sheets).vers
        ("d") = 0 ∧
      (save_date ⟨[["h"]], [["date", "version"], [("d"), ("abc")]], [["h"]]⟩ ("d") [] 0
        ("u") false 30 ⟨("t"), idEnv 0, 0, 0⟩).1 = (true, ("")) ∧
      (save_date ⟨[["h"]], [["date", "version"], [("d"), ("abc")]], [["h"]]⟩ ("d") [] 0
        ("u") false 30 ⟨("t"), idEnv 0, 0, 0⟩).2.vers =
        ["date", "version"] :: [("d"), pyStr 1] :: [] ∧
      pyStr 1 = ("1")) :=
  ⟨by decide, by decide,
    get_version_malformed ⟨[["h"]], [["date", "version"], [("d"), ("abc")]], [["h"]]⟩ ("d")
      ("abc") ["date", "version"] [] [] ("u") 30 ⟨("t"), idEnv 0, 0, 0⟩ (by decide) (by decide)⟩

/-- Claim C3: while the stored record holds a non-empty, unexpired token
different from the caller's fresh token, `acquire_lock` sleeps
`backoff * attemptNumber` per attempt and, after `max_retry` attempts,
returns `None` without having written; and it returns its token only when
the re-read after its write shows exactly that token stored for the key. -/
theorem acquire_lock_retry_and_confirm (key user token : String) (ttl max_retry : Nat)
    (env : AcqEnv) (s : WS) :
    (∀ (i T : Nat),
      (∀ k, env.pre k s = s) →
      lock_row_index s key = some i →
      pyStrip (cell (wsRow s i) 1) ≠ ("") →
      pyStrip (cell (wsRow s i) 1) ≠ token →
      parseIso (pyStrip (cell (wsRow s i) 3)) = some T →
      (∀ k, k < max_retry → env.nowAt k < T) →
      acquire_lock s key user token ttl max_retry env =
        (none, s, List.range' 1 max_retry)) ∧
    (∀ (tok : String) (l' : WS) (sl' : List Nat),
      acquire_lock s key user token ttl max_retry env = (some tok, l', sl') →
      tok = token ∧ ∃ j, lock_row_index l' key = some j ∧
        4 ≤ (wsRow l' j).length ∧ cell (wsRow l' j) 0 = key ∧
        cell (wsRow l' j) 1 = token) := by
  constructor
  · intro i T hpre hrow htok hne hexp hT
    unfold acquire_lock
    have h := acquire_go_blocked key user token ttl env s i T hpre hrow htok hne hexp
      max_retry 0 [] (by intro k hk; exact hT k (by omega))
    simpa using h
  · intro tok l' sl' h
    obtain ⟨h1, h2⟩ := acquire_go_success key user token ttl env max_retry 0 s [] tok l' sl' h
    obtain ⟨j, hj, hlen, h0, hcell⟩ := acquire_check_spec l' key token h2
    exact ⟨h1, j, hj, hlen, h0, hcell⟩

/-- Witness for C3: a foreign valid token forces five backoff sleeps and
failure; on an empty lock sheet the first write is re-read and confirmed. -/
theorem acquire_lock_retry_and_confirm_witness :
    (acquire_lock [["h"], [("d"), ("other"), ("bob"), iso 1000]] ("d") ("u") ("mytok") 30 5
        (idEnv 0) =
      (none, [["h"], [("d"), ("other"), ("bob"), iso 1000]], List.range' 1 5)) ∧
    (("tk") = ("tk") ∧ ∃ j,
      lock_row_index [["h"], [("d"), ("tk"), ("u"), iso 35]] ("d") = some j ∧
      4 ≤ (wsRow [["h"], [("d"), ("tk"), ("u"), iso 35]] j).length ∧
      cell (wsRow [["h"], [("d"), ("tk"), ("u"), iso 35]] j) 0 = ("d") ∧
      cell (wsRow [["h"], [("d"), ("tk"), ("u"), iso 35]] j) 1 = ("tk")) :=
  ⟨(acquire_lock_retry_and_confirm ("d") ("u") ("mytok") 30 5 (idEnv 0)
      [["h"], [("d"), ("other"), ("bob"), iso 1000]]).1 2 1000 (fun _ => rfl) (by decide)
      (by decide) (by decide) (by decide) (fun k _ => (by decide : (0 : Nat) < 1000)),
   (acquire_lock_retry_and_confirm ("d") ("u") ("tk") 30 5 (idEnv 5) [["h"]]).2 ("tk")
     [["h"], [("d"), ("tk"), ("u"), iso 35]] [] (by decide)⟩

/-- Claim C4 counterexample: a lock acquired at expiry 30 is released at
time 100 — well past its ttl — with the original token, and the release
*does* clear the record (token cell emptied), because `release_lock`
compares only tokens and never consults the stored expiry. -/
theorem release_after_expiry_cex :
    cell (wsRow [["h"], [("d"), ("tok"), ("bob"), iso 30]] 2) 1 = ("tok") ∧
    parseIso (iso 30) = some 30 ∧ 30 ≤ 100 ∧
    release_lock [["h"], [("d"), ("tok"), ("bob"), iso 30]] ("d") ("tok") 100 ≠
      [["h"], [("d"), ("tok"), ("bob"), iso 30]] ∧
    cell (wsRow (release_lock [["h"], [("d"), ("tok"), ("bob"), iso 30]] ("d") ("tok") 100)
      2) 1 = ("") := by
  decide

/-- Claim C4 as amended: once the stored expiry has passed, a competing
`acquire_lock` succeeds in one attempt without any release by the original
holder; `release_lock` with the original token, however, still matches and
clears the record, since release checks token equality only. -/
theorem lock_expiry_amended (key user tok0 u0 token : String) (hdr : Row)
    (e now now2 ttl : Nat) (he : e ≤ now) :
    (acquire_lock [hdr, [key, tok0, u0, iso e]] key user token ttl 1 (idEnv now)).1 =
      some token ∧
    cell (wsRow (release_lock [hdr, [key, tok0, u0, iso e]] key tok0 now2) 2) 1 = ("") := by
  refine ⟨acquire_steal_expired key user tok0 u0 token hdr e now ttl he, ?_⟩
  have hidx : lock_row_index [hdr, [key, tok0, u0, iso e]] key = some 2 := by
    have h1 : lock_row_index [hdr, [key, tok0, u0, iso e]] key =
        lock_row_index_go key [[key, tok0, u0, iso e]] 2 := rfl
    rw [h1]
    simp only [lock_row_index_go]
    rw [if_pos (by simp [rowMatches, cell])]
  exact (release_matching_tombstones [hdr, [key, tok0, u0, iso e]] key tok0 now2 2 hidx
    (by show (2 : Nat) ≤ 4; decide) rfl).2.1

/-- Witness for C4's amended claim at concrete values. -/
theorem lock_expiry_amended_witness :
    (30 : Nat) ≤ 100 ∧
    ((acquire_lock [["h"], [("d"), ("t0"), ("bob"), iso 30]] ("d") ("alice") ("tk") 30 1
        (idEnv 100)).1 = some ("tk") ∧
      cell (wsRow (release_lock [["h"], [("d"), ("t0"), ("bob"), iso 30]] ("d") ("t0") 200)
        2) 1 = ("")) :=
  ⟨by decide, lock_expiry_amended ("d") ("alice") ("t0") ("bob") ("tk") ["h"] 30 100 200 30
    (by decide)⟩

/-- Unpacks a present stored token. -/
theorem stored_token_spec (lock : WS) (key t : String)
    (h : stored_token lock key = some t) :
    ∃ i, lock_row_index lock key = some i ∧ 2 ≤ (wsRow lock i).length ∧
      cell (wsRow lock i) 1 = t := by
  unfold stored_token at h
  rcases hI : lock_row_index lock key with _ | i <;> simp only [hI] at h
  · exact absurd h (by simp)
  · by_cases hlen : (wsRow lock i).length ≥ 2
    · rw [if_pos hlen] at h
      injection h with h
      exact ⟨i, rfl, hlen, h⟩
    · rw [if_neg hlen] at h
      exact absurd h (by simp)

/-- Claim C5: `release_lock(key, token)` is a no-op when no record exists
for the key or when the stored token differs from `token`; when the stored
token equals `token` it overwrites the record with an empty token, an empty
holder, and an expiry of one second before now.  The stored token of a
record is its second cell where present (`row_values` drops trailing empty
cells, so a row truncated before the token column stores none). -/
theorem release_lock_spec (lock : WS) (key token : String) (now : Nat) :
    (lock_row_index lock key = none → release_lock lock key token now = lock) ∧
    (∀ t, stored_token lock key = some t → t ≠ token →
      release_lock lock key token now = lock) ∧
    (stored_token lock key = some token →
      ∃ i, lock_row_index lock key = some i ∧
        release_lock lock key token now =
          lock.set (i - 1) (updateBD (wsRow lock i) ("") ("") (iso (now - 1))) ∧
        cell (wsRow (release_lock lock key token now) i) 1 = ("") ∧
        cell (wsRow (release_lock lock key token now) i) 2 = ("") ∧
        cell (wsRow (release_lock lock key token now) i) 3 = iso (now - 1)) := by
  refine ⟨fun h => release_no_record lock key token now h, ?_, ?_⟩
  · intro t hst hne
    obtain ⟨i, hI, hlen, hcell⟩ := stored_token_spec lock key t hst
    exact release_other_token lock key token now i hI
      (fun hcon => hne (by rw [← hcell, hcon.2]))
  · intro hst
    obtain ⟨i, hI, hlen, hcell⟩ := stored_token_spec lock key token hst
    exact ⟨i, hI, release_matching_tombstones lock key token now i hI hlen hcell⟩

/-- Witness for C5: a mismatched release leaves the sheet alone, a matching
release writes the tombstone. -/
theorem release_lock_spec_witness :
    (stored_token [["h"], [("d"), ("tok"), ("u"), iso 30]] ("d") = some ("tok") ∧
      ("tok") ≠ ("x")) ∧
    release_lock [["h"], [("d"), ("tok"), ("u"), iso 30]] ("d") ("x") 50 =
      [["h"], [("d"), ("tok"), ("u"), iso 30]] ∧
    (∃ i, lock_row_index [["h"], [("d"), ("tok"), ("u"), iso 30]] ("d") = some i ∧
      release_lock [["h"], [("d"), ("tok"), ("u"), iso 30]] ("d") ("tok") 50 =
        [["h"], [("d"), ("tok"), ("u"), iso 30]].set (i - 1)
          (updateBD (wsRow [["h"], [("d"), ("tok"), ("u"), iso 30]] i) ("") ("")
            (iso (50 - 1))) ∧
      cell (wsRow (release_lock [["h"], [("d"), ("tok"), ("u"), iso 30]] ("d") ("tok") 50)
        i) 1 = ("") ∧
      cell (wsRow (release_lock [["h"], [("d"), ("tok"), ("u"), iso 30]] ("d") ("tok") 50)
        i) 2 = ("") ∧
      cell (wsRow (release_lock [["h"], [("d"), ("tok"), ("u"), iso 30]] ("d") ("tok") 50)
        i) 3 = iso (50 - 1)) :=
  ⟨⟨by decide, by decide⟩,
   (release_lock_spec [["h"], [("d"), ("tok"), ("u"), iso 30]] ("d") ("x") 50).2.1 ("tok")
     (by decide) (by decide),
   (release_lock_spec [["h"], [("d"), ("tok"), ("u"), iso 30]] ("d") ("tok") 50).2.2
     (by decide)⟩

/-- Claim C6: whenever a `use_lock` commit actually acquired a token, the
`finally` clause runs `release_lock(key, token)` on every exit path — on
success, on `VERSION_CONFLICT`, and when an error is raised mid-commit
(the error still propagating) — and that release tombstones the acquired
record, so the commit never leaves its lock held. -/
theorem save_date_releases_lock (s : Sheets) (key : String) (day : Day) (expected : Int)
    (user : String) (ttl : Nat) (env : SaveEnv) (tok : String) (l1 : WS) (sl : List Nat)
    (hacq : acquire_lock s.lock key user env.token ttl 5 env.acq = (some tok, l1, sl)) :
    ((save_date s key day expected user true ttl env).2.lock =
        release_lock l1 key tok env.relNow ∧
      ∃ j, lock_row_index (save_date s key day expected user true ttl env).2.lock key =
          some j ∧
        cell (wsRow (save_date s key day expected user true ttl env).2.lock j) 1 = ("")) ∧
    (∀ (n : Nat) (err : String),
      (save_date_exc s key day expected user true ttl env (some n) err).1 =
        Except.error err ∧
      (save_date_exc s key day expected user true ttl env (some n) err).2.lock =
        release_lock l1 key tok env.relNow ∧
      ∃ j, cell (wsRow (save_date_exc s key day expected user true ttl env (some n)
        err).2.lock j) 1 = ("")) := by
  obtain ⟨htok, hchk⟩ :=
    acquire_go_success key user env.token ttl env.acq 5 0 s.lock [] tok l1 sl hacq
  rw [← htok] at hchk
  obtain ⟨j, hrel, hidx, hcell⟩ := release_after_check l1 key tok env.relNow hchk
  constructor
  · have heq := save_date_eq_locked s key day expected user ttl env tok l1 sl hacq
    have hlock : (save_date s key day expected user true ttl env).2.lock =
        release_lock l1 key tok env.relNow := by
      rw [heq]
      show release_lock (save_body { s with lock := l1 } key day expected env.rowNow).2.lock
          key tok env.relNow = _
      rw [save_body_lock]
    exact ⟨hlock, j, by rw [hlock, hrel]; rw [hrel] at hidx; exact hidx,
      by rw [hlock]; exact hcell⟩
  · intro n err
    have heq := save_date_exc_eq_raise s key day expected user ttl env n err tok l1 sl hacq
    have hlock : (save_date_exc s key day expected user true ttl env (some n) err).2.lock =
        release_lock l1 key tok env.relNow := by
      rw [heq]
      show release_lock (run_steps { s with lock := l1 }
          ((body_steps key day expected env.rowNow { s with lock := l1 }).take n)).lock
          key tok env.relNow = _
      rw [run_steps_body_lock]
    exact ⟨by rw [heq], hlock, j, by rw [hlock]; exact hcell⟩

/-- Witness for C6: on a fresh lock sheet the commit acquires, writes and
leaves the record tombstoned, on both the normal and the raising path. -/
theorem save_date_releases_lock_witness :
    (acquire_lock [["h"]] ("d") ("u") ("tk") 30 5 (idEnv 5) =
      (some ("tk"), [["h"], [("d"), ("tk"), ("u"), iso 35]], [])) ∧
    (((save_date ⟨[["h"]], [["h"]], [["h"]]⟩ ("d") [] 0 ("u") true 30
          ⟨("tk"), idEnv 5, 7, 9⟩).2.lock =
        release_lock [["h"], [("d"), ("tk"), ("u"), iso 35]] ("d") ("tk") 9 ∧
      ∃ j, lock_row_index (save_date ⟨[["h"]], [["h"]], [["h"]]⟩ ("d") [] 0 ("u") true 30
          ⟨("tk"), idEnv 5, 7, 9⟩).2.lock ("d") = some j ∧
        cell (wsRow (save_date ⟨[["h"]], [["h"]], [["h"]]⟩ ("d") [] 0 ("u") true 30
          ⟨("tk"), idEnv 5, 7, 9⟩).2.lock j) 1 = ("")) ∧
    (∀ (n : Nat) (err : String),
      (save_date_exc ⟨[["h"]], [["h"]], [["h"]]⟩ ("d") [] 0 ("u") true 30
          ⟨("tk"), idEnv 5, 7, 9⟩ (some n) err).1 = Except.error err ∧
      (save_date_exc ⟨[["h"]], [["h"]], [["h"]]⟩ ("d") [] 0 ("u") true 30
          ⟨("tk"), idEnv 5, 7, 9⟩ (some n) err).2.lock =
        release_lock [["h"], [("d"), ("tk"), ("u"), iso 35]] ("d") ("tk") 9 ∧
      ∃ j, cell (wsRow (save_date_exc ⟨[["h"]], [["h"]], [["h"]]⟩ ("d") [] 0 ("u") true 30
          ⟨("tk"), idEnv 5, 7, 9⟩ (some n) err).2.lock j) 1 = (""))) :=
  ⟨by decide, save_date_releases_lock ⟨[["h"]], [["h"]], [["h"]]⟩ ("d") [] 0 ("u") 30
    ⟨("tk"), idEnv 5, 7, 9⟩ ("tk") [["h"], [("d"), ("tk"), ("u"), iso 35]] [] (by decide)⟩

/-! ## Day dictionary lemmas -/

/-- Overwriting an existing head binding. -/
theorem dinsert_head_eq (k : String) (v v0 : α) (t : List (String × α)) :
    dinsert ((k, v0) :: t) k v = (k, v) :: t := by
  simp only [dinsert]
  rw [if_pos (by simp)]

/-- Insertion walks past a head with a different key. -/
theorem dinsert_head_ne (h : String × α) (k : String) (v : α) (t : List (String × α))
    (hne : h.1 ≠ k) :
    dinsert (h :: t) k v = h :: dinsert t k v := by
  simp only [dinsert]
  rw [if_neg (by simp [hne])]

/-- Insertion at a key absent from the dict appends. -/
theorem dinsert_append_of_not_mem (d : List (String × α)) (k : String) (v : α)
    (h : ∀ p ∈ d, p.1 ≠ k) :
    dinsert d k v = d ++ [(k, v)] := by
  induction d with
  | nil => rfl
  | cons p ps ih =>
      rw [dinsert_head_ne p k v ps (h p (by simp))]
      rw [ih (fun q hq => h q (by simp [hq]))]
      rfl

/-- Insertion at a key found after a prefix of different keys overwrites in
place. -/
theorem dinsert_middle (pre : List (String × α)) (b : String) (v0 v : α)
    (post : List (String × α)) (h : ∀ p ∈ pre, p.1 ≠ b) :
    dinsert (pre ++ (b, v0) :: post) b v = pre ++ (b, v) :: post := by
  induction pre with
  | nil => exact dinsert_head_eq b v v0 post
  | cons p ps ih =>
      rw [List.cons_append, dinsert_head_ne p b v _ (h p (by simp))]
      rw [ih (fun q hq => h q (by simp [hq]))]
      rfl

/-- The dict comprehension `{b: None for b in blocks}` over distinct blocks
is the association list of the blocks in order. -/
theorem foldl_dinsert_none :
    ∀ (bs : List String) (acc : List (String × Option Slot)), bs.Nodup →
      (∀ b ∈ bs, ∀ p ∈ acc, p.1 ≠ b) →
      bs.foldl (fun d b => dinsert d b none) acc =
        acc ++ bs.map (fun b => (b, (none : Option Slot))) := by
  intro bs
  induction bs with
  | nil => intro acc _ _; simp
  | cons c cs ih =>
      intro acc hnd hdis
      simp only [List.foldl_cons]
      rw [dinsert_append_of_not_mem acc c none (fun p hp => hdis c (by simp) p hp)]
      rw [ih (acc ++ [(c, none)]) (by simpa using hnd.of_cons) ?hdis]
      · simp
      case hdis =>
        intro b hb p hp
        rcases List.mem_append.mp hp with h1 | h2
        · exact hdis b (by simp [hb]) p h1
        · simp only [List.mem_singleton] at h2
          subst h2
          intro hcb
          have hcb' : c = b := hcb
          subst hcb'
          exact (List.nodup_cons.mp hnd).1 hb

/-- A dict with the given keys and all-empty values is the initial dict. -/
theorem eq_map_none_of_all_none :
    ∀ (l : CourtDict) (bs : List String), l.map Prod.fst = bs →
      (∀ p ∈ l, p.2 = none) → l = bs.map (fun b => (b, (none : Option Slot))) := by
  intro l
  induction l with
  | nil =>
      intro bs h _
      rw [← h]
      rfl
  | cons p ps ih =>
      intro bs h hall
      subst h
      obtain ⟨a, v⟩ := p
      have hv : v = none := hall (a, v) (by simp)
      subst hv
      simp only [List.map_cons]
      conv_lhs => rw [ih (ps.map Prod.fst) rfl (fun q hq => hall q (by simp [hq]))]

/-- Looking up court A of the day dict. -/
theorem dlookup_A (x y : CourtDict) :
    dlookup ("A") [(("A"), x), (("B"), y)] = some x := by
  simp [dlookup]

/-- Looking up court B of the day dict. -/
theorem dlookup_B (x y : CourtDict) :
    dlookup ("B") [(("A"), x), (("B"), y)] = some y := by
  simp [dlookup]

/-- A row written for a non-empty slot scans as a row of its date key. -/
theorem rowMatches_slot_row (key c b : String) (sl : Slot) (nowIso : String) :
    rowMatches (slot_row key c b sl nowIso) key = true := by
  unfold rowMatches slot_row cell
  simp

/-- Replaying a saved slot row of court A updates exactly that block of
court A, rebuilding the slot unchanged when its `createdAt` is non-empty. -/
theorem apply_slot_row_A (x y : CourtDict) (key b : String) (sl : Slot) (nowIso : String)
    (hc : sl.createdAt ≠ ("")) :
    apply_row [(("A"), x), (("B"), y)] (slot_row key ("A") b sl nowIso) =
      [(("A"), dinsert x b (some sl)), (("B"), y)] := by
  unfold apply_row
  rw [if_pos (by unfold slot_row; simp)]
  have hcourt : cell (slot_row key ("A") b sl nowIso) 1 = ("A") := rfl
  rw [hcourt]
  rw [if_pos (by simp)]
  rw [dlookup_A, Option.getD_some]
  have hslot : Slot.mk (cell (slot_row key ("A") b sl nowIso) 3)
      (cell (slot_row key ("A") b sl nowIso) 4)
      (cell (slot_row key ("A") b sl nowIso) 5) = sl := by
    have h5 : cell (slot_row key ("A") b sl nowIso) 5 = sl.createdAt := by
      show (if sl.createdAt == ("") then nowIso else sl.createdAt) = sl.createdAt
      rw [if_neg (by simp [hc])]
    cases sl with
    | mk u n c => exact congrArg (Slot.mk u n) h5
  rw [hslot]
  have hbid : cell (slot_row key ("A") b sl nowIso) 2 = b := rfl
  rw [hbid]
  rw [dinsert_head_eq]

/-- Replaying a saved slot row of court B updates exactly that block of
court B. -/
theorem apply_slot_row_B (x y : CourtDict) (key b : String) (sl : Slot) (nowIso : String)
    (hc : sl.createdAt ≠ ("")) :
    apply_row [(("A"), x), (("B"), y)] (slot_row key ("B") b sl nowIso) =
      [(("A"), x), (("B"), dinsert y b (some sl))] := by
  unfold apply_row
  rw [if_pos (by unfold slot_row; simp)]
  have hcourt : cell (slot_row key ("B") b sl nowIso) 1 = ("B") := rfl
  rw [hcourt]
  rw [if_pos (by simp)]
  rw [dlookup_B, Option.getD_some]
  have hslot : Slot.mk (cell (slot_row key ("B") b sl nowIso) 3)
      (cell (slot_row key ("B") b sl nowIso) 4)
      (cell (slot_row key ("B") b sl nowIso) 5) = sl := by
    have h5 : cell (slot_row key ("B") b sl nowIso) 5 = sl.createdAt := by
      show (if sl.createdAt == ("") then nowIso else sl.createdAt) = sl.createdAt
      rw [if_neg (by simp [hc])]
    cases sl with
    | mk u n c => exact congrArg (Slot.mk u n) h5
  rw [hslot]
  have hbid : cell (slot_row key ("B") b sl nowIso) 2 = b := rfl
  rw [hbid]
  rw [dinsert_head_ne _ _ _ _ (show (("A" : String)) ≠ ("B") from by decide),
    dinsert_head_eq]

/-- `court_rows` drops an empty slot. -/
theorem court_rows_cons_none (key c b : String) (rest : CourtDict) (nowIso : String) :
    court_rows key c ((b, none) :: rest) nowIso = court_rows key c rest nowIso := by
  unfold court_rows
  rw [List.filterMap_cons]
  rfl

/-- `court_rows` emits one row per occupied slot. -/
theorem court_rows_cons_some (key c b : String) (sl : Slot) (rest : CourtDict)
    (nowIso : String) :
    court_rows key c ((b, some sl) :: rest) nowIso =
      slot_row key c b sl nowIso :: court_rows key c rest nowIso := by
  unfold court_rows
  rw [List.filterMap_cons]
  rfl

/-- Replaying court A's saved rows over the initial all-empty dict, after a
prefix `done` already rebuilt, reconstructs the court dict exactly. -/
theorem foldA (key nowIso : String) :
    ∀ (rest done y : CourtDict),
      (∀ p ∈ rest, ∀ q ∈ done, q.1 ≠ p.1) →
      (rest.map Prod.fst).Nodup →
      (∀ p ∈ rest, ∀ sl, p.2 = some sl → sl.createdAt ≠ ("")) →
      (court_rows key ("A") rest nowIso).foldl apply_row
          [(("A"), done ++ rest.map (fun q => (q.1, (none : Option Slot)))), (("B"), y)] =
        [(("A"), done ++ rest), (("B"), y)] := by
  intro rest
  induction rest with
  | nil => intro done y _ _ _; simp [court_rows]
  | cons p rest' ih =>
      intro done y hdis hnd hcre
      obtain ⟨b, s?⟩ := p
      have hfresh : ∀ q ∈ rest', b ≠ q.1 := by
        intro q hq hbq
        have : b ∈ rest'.map Prod.fst := by
          rw [hbq]
          exact List.mem_map_of_mem _ hq
        exact (List.nodup_cons.mp (by simpa using hnd)).1 this
      have hdis' : ∀ p ∈ rest', ∀ q ∈ done ++ [(b, s?)], q.1 ≠ p.1 := by
        intro p hp q hq
        rcases List.mem_append.mp hq with h1 | h2
        · exact hdis p (by simp [hp]) q h1
        · simp only [List.mem_singleton] at h2
          subst h2
          exact hfresh p hp
      have hnd' : (rest'.map Prod.fst).Nodup := (List.nodup_cons.mp (by simpa using hnd)).2
      have hcre' : ∀ p ∈ rest', ∀ sl, p.2 = some sl → sl.createdAt ≠ ("") :=
        fun p hp sl hsl => hcre p (by simp [hp]) sl hsl
      cases s? with
      | none =>
          rw [court_rows_cons_none]
          have hshape : done ++ (((b, none) :: rest' : CourtDict).map
              (fun q => (q.1, (none : Option Slot)))) =
              (done ++ [(b, (none : Option Slot))]) ++ rest'.map
                (fun q => (q.1, (none : Option Slot))) := by
            simp
          rw [hshape, ih (done ++ [(b, none)]) y hdis' hnd' hcre']
          simp
      | some sl =>
          rw [court_rows_cons_some, List.foldl_cons]
          have hshape : done ++ (((b, some sl) :: rest' : CourtDict).map
              (fun q => (q.1, (none : Option Slot)))) =
              done ++ (b, (none : Option Slot)) :: rest'.map
                (fun q => (q.1, (none : Option Slot))) := by
            simp
          rw [hshape]
          rw [apply_slot_row_A _ y key b sl nowIso (hcre (b, some sl) (by simp) sl rfl)]
          rw [dinsert_middle done b none (some sl) _
            (fun q hq => hdis (b, some sl) (by simp) q hq)]
          have hshape2 : done ++ ((b, some sl)) :: rest'.map
              (fun q => (q.1, (none : Option Slot))) =
              (done ++ [(b, some sl)]) ++ rest'.map
                (fun q => (q.1, (none : Option Slot))) := by
            simp
          rw [hshape2, ih (done ++ [(b, some sl)]) y hdis' hnd' hcre']
          simp

/-- Replaying court B's saved rows, with court A already rebuilt. -/
theorem foldB (key nowIso : String) :
    ∀ (rest done x : CourtDict),
      (∀ p ∈ rest, ∀ q ∈ done, q.1 ≠ p.1) →
      (rest.map Prod.fst).Nodup →
      (∀ p ∈ rest, ∀ sl, p.2 = some sl → sl.createdAt ≠ ("")) →
      (court_rows key ("B") rest nowIso).foldl apply_row
          [(("A"), x), (("B"), done ++ rest.map (fun q => (q.1, (none : Option Slot))))] =
        [(("A"), x), (("B"), done ++ rest)] := by
  intro rest
  induction rest with
  | nil => intro done x _ _ _; simp [court_rows]
  | cons p rest' ih =>
      intro done x hdis hnd hcre
      obtain ⟨b, s?⟩ := p
      have hfresh : ∀ q ∈ rest', b ≠ q.1 := by
        intro q hq hbq
        have : b ∈ rest'.map Prod.fst := by
          rw [hbq]
          exact List.mem_map_of_mem _ hq
        exact (List.nodup_cons.mp (by simpa using hnd)).1 this
      have hdis' : ∀ p ∈ rest', ∀ q ∈ done ++ [(b, s?)], q.1 ≠ p.1 := by
        intro p hp q hq
        rcases List.mem_append.mp hq with h1 | h2
        · exact hdis p (by simp [hp]) q h1
        · simp only [List.mem_singleton] at h2
          subst h2
          exact hfresh p hp
      have hnd' : (rest'.map Prod.fst).Nodup := (List.nodup_cons.mp (by simpa using hnd)).2
      have hcre' : ∀ p ∈ rest', ∀ sl, p.2 = some sl → sl.createdAt ≠ ("") :=
        fun p hp sl hsl => hcre p (by simp [hp]) sl hsl
      cases s? with
      | none =>
          rw [court_rows_cons_none]
          have hshape : done ++ (((b, none) :: rest' : CourtDict).map
              (fun q => (q.1, (none : Option Slot)))) =
              (done ++ [(b, (none : Option Slot))]) ++ rest'.map
                (fun q => (q.1, (none : Option Slot))) := by
            simp
          rw [hshape, ih (done ++ [(b, none)]) x hdis' hnd' hcre']
          simp
      | some sl =>
          rw [court_rows_cons_some, List.foldl_cons]
          have hshape : done ++ (((b, some sl) :: rest' : CourtDict).map
              (fun q => (q.1, (none : Option Slot)))) =
              done ++ (b, (none : Option Slot)) :: rest'.map
                (fun q => (q.1, (none : Option Slot))) := by
            simp
          rw [hshape]
          rw [apply_slot_row_B x _ key b sl nowIso (hcre (b, some sl) (by simp) sl rfl)]
          rw [dinsert_middle done b none (some sl) _
            (fun q hq => hdis (b, some sl) (by simp) q hq)]
          have hshape2 : done ++ ((b, some sl)) :: rest'.map
              (fun q => (q.1, (none : Option Slot))) =
              (done ++ [(b, some sl)]) ++ rest'.map
                (fun q => (q.1, (none : Option Slot))) := by
            simp
          rw [hshape2, ih (done ++ [(b, some sl)]) x hdis' hnd' hcre']
          simp

/-- A scan over non-matching rows finds nothing. -/
theorem find_rows_go_nil_of_none (key : String) (a : List Row) (idx : Nat)
    (h : ∀ r ∈ a, rowMatches r key = false) : find_rows_go key a idx = [] := by
  have h2 := find_rows_go_append_none key a [] idx h
  simpa using h2

/-- Every row `save_date` writes scans as a row of the saved key. -/
theorem mem_new_rows_matches (key : String) (day : Day) (nowIso : String) :
    ∀ r ∈ new_rows key day nowIso, rowMatches r key = true := by
  intro r hr
  unfold new_rows at hr
  have hcourt : ∀ (c : String) (inner : CourtDict), r ∈ court_rows key c inner nowIso →
      rowMatches r key = true := by
    intro c inner hmem
    unfold court_rows at hmem
    obtain ⟨p, _, hfp⟩ := List.mem_filterMap.mp hmem
    obtain ⟨sl, _, hrow⟩ := Option.map_eq_some'.mp hfp
    rw [← hrow]
    exact rowMatches_slot_row key c p.1 sl nowIso
  rcases List.mem_append.mp hr with h1 | h2
  · exact hcourt _ _ h1
  · exact hcourt _ _ h2

/-- A court contributing no rows has only empty slots. -/
theorem court_rows_eq_nil (key c : String) (inner : CourtDict) (nowIso : String)
    (h : court_rows key c inner nowIso = []) : ∀ p ∈ inner, p.2 = none := by
  intro p hp
  unfold court_rows at h
  rw [List.filterMap_eq_nil_iff] at h
  exact Option.map_eq_none'.mp (h p hp)

/-- The initial all-empty dict for each court, keyed like the saved court. -/
theorem init_eq_map (blocks : List String) (l : CourtDict) (hnd : blocks.Nodup)
    (hk : l.map Prod.fst = blocks) :
    blocks.foldl (fun d b => dinsert d b none) [] =
      l.map (fun q => (q.1, (none : Option Slot))) := by
  rw [foldl_dinsert_none blocks [] hnd (by intro b _ p hp; simp at hp)]
  rw [List.nil_append, ← hk, List.map_map]
  rfl

/-- Claim C8 as amended: for a partition state shaped like the app's day
dicts — courts exactly `A` and `B`, each keyed by exactly the configured
blocks, every occupied slot carrying a non-empty `createdAt` — a
`load_date` immediately after a successful `save_date` returns that exact
state together with the previous version plus one.  (As stated over all
states the claim fails: an empty `createdAt` is replaced by the save-time
clock, see the counterexample.) -/
theorem save_load_roundtrip_amended (s : Sheets) (key user : String) (blocks : List String)
    (iA iB : CourtDict) (expected : Int) (use_lock : Bool) (ttl : Nat) (env : SaveEnv)
    (hresv : s.resv ≠ []) (hvers : s.vers ≠ [])
    (hnd : blocks.Nodup)
    (hA : iA.map Prod.fst = blocks) (hB : iB.map Prod.fst = blocks)
    (hcA : (iA.all fun p => match p.2 with
      | some sl => sl.createdAt != ("")
      | none => true) = true)
    (hcB : (iB.all fun p => match p.2 with
      | some sl => sl.createdAt != ("")
      | none => true) = true)
    (hsucc : (save_date s key [(("A"), iA), (("B"), iB)] expected user use_lock ttl env).1 =
      (true, (""))) :
    (load_date
        (save_date s key [(("A"), iA), (("B"), iB)] expected user use_lock ttl env).2.resv
        (save_date s key [(("A"), iA), (("B"), iB)] expected user use_lock ttl env).2.vers
        key blocks).1 = [(("A"), iA), (("B"), iB)] ∧
    (load_date
        (save_date s key [(("A"), iA), (("B"), iB)] expected user use_lock ttl env).2.resv
        (save_date s key [(("A"), iA), (("B"), iB)] expected user use_lock ttl env).2.vers
        key blocks).2 = get_version s.vers key + 1 := by
  have hcA' : ∀ p ∈ iA, ∀ sl, p.2 = some sl → sl.createdAt ≠ ("") := by
    intro p hp sl hsl
    have h1 := List.all_eq_true.mp hcA p hp
    rw [hsl] at h1
    exact bne_iff_ne.mp h1
  have hcB' : ∀ p ∈ iB, ∀ sl, p.2 = some sl → sl.createdAt ≠ ("") := by
    intro p hp sl hsl
    have h1 := List.all_eq_true.mp hcB p hp
    rw [hsl] at h1
    exact bne_iff_ne.mp h1
  rcases save_date_cases s key [(("A"), iA), (("B"), iB)] expected user use_lock ttl env
    with h | h | h
  · rw [h.1] at hsucc
    exact absurd hsucc (by simp)
  · rw [h.2.1] at hsucc
    exact absurd hsucc (by simp)
  obtain ⟨hv, _, hresv', hvers'⟩ := h
  have hver2 : (load_date
      (save_date s key [(("A"), iA), (("B"), iB)] expected user use_lock ttl env).2.resv
      (save_date s key [(("A"), iA), (("B"), iB)] expected user use_lock ttl env).2.vers
      key blocks).2 =
      get_version
        (save_date s key [(("A"), iA), (("B"), iB)] expected user use_lock ttl env).2.vers
        key := rfl
  refine ⟨?_, ?_⟩
  case refine_2 =>
    rw [hver2, hvers', get_version_set_version _ _ _ hvers]
  case refine_1 =>
    rcases hsr : s.resv with _ | ⟨h0, t0⟩
    · exact absurd hsr hresv
    have hrows : new_rows key [(("A"), iA), (("B"), iB)] (iso env.rowNow) =
        court_rows key ("A") iA (iso env.rowNow) ++ court_rows key ("B") iB (iso env.rowNow) := by
      unfold new_rows
      rw [dlookup_A, dlookup_B, Option.getD_some, Option.getD_some]
    have hclean : delete_rows_for s.resv key =
        h0 :: t0.filter (fun r => !rowMatches r key) := by
      rw [hsr]
      exact delete_rows_for_eq h0 t0 key
    have hcleanmem : ∀ r ∈ t0.filter (fun r => !rowMatches r key),
        rowMatches r key = false := by
      intro r hr
      have := List.of_mem_filter hr
      simpa using this
    have hinitA : blocks.foldl (fun d b => dinsert d b none) [] =
        iA.map (fun q => (q.1, (none : Option Slot))) := init_eq_map blocks iA hnd hA
    have hinitB : blocks.foldl (fun d b => dinsert d b none) [] =
        iB.map (fun q => (q.1, (none : Option Slot))) := init_eq_map blocks iB hnd hB
    have hdayinit : load_day_init blocks =
        [(("A"), iA.map (fun q => (q.1, (none : Option Slot)))),
         (("B"), iB.map (fun q => (q.1, (none : Option Slot))))] := by
      exact congrArg₂ (fun a b => [(("A"), a), (("B"), b)]) hinitA hinitB
    by_cases hempty :
        (new_rows key [(("A"), iA), (("B"), iB)] (iso env.rowNow)).isEmpty = true
    · -- no occupied slot: nothing is appended and everything reloads empty
      have hnil : new_rows key [(("A"), iA), (("B"), iB)] (iso env.rowNow) = [] :=
        List.isEmpty_iff.mp hempty
      have hApart : court_rows key ("A") iA (iso env.rowNow) = [] := by
        have := hrows.symm.trans hnil
        exact (List.append_eq_nil.mp this).1
      have hBpart : court_rows key ("B") iB (iso env.rowNow) = [] := by
        have := hrows.symm.trans hnil
        exact (List.append_eq_nil.mp this).2
      have hiA : iA = blocks.map (fun b => (b, (none : Option Slot))) :=
        eq_map_none_of_all_none iA blocks hA (court_rows_eq_nil _ _ _ _ hApart)
      have hiB : iB = blocks.map (fun b => (b, (none : Option Slot))) :=
        eq_map_none_of_all_none iB blocks hB (court_rows_eq_nil _ _ _ _ hBpart)
      have hsaved : saved_resv s.resv key [(("A"), iA), (("B"), iB)] env.rowNow =
          h0 :: t0.filter (fun r => !rowMatches r key) := by
        unfold saved_resv
        rw [if_pos hempty, hclean]
      rw [hresv', hsaved]
      have hfind : find_rows_for_date (h0 :: t0.filter (fun r => !rowMatches r key)) key =
          [] := by
        have h1 : find_rows_for_date (h0 :: t0.filter (fun r => !rowMatches r key)) key =
            find_rows_go key (t0.filter (fun r => !rowMatches r key)) 2 := rfl
        rw [h1]
        exact find_rows_go_nil_of_none key _ 2 hcleanmem
      show (find_rows_for_date (h0 :: t0.filter (fun r => !rowMatches r key)) key).foldl
          (fun d i => apply_row d (wsRow (h0 :: t0.filter (fun r => !rowMatches r key)) i))
          (load_day_init blocks) = _
      rw [hfind, List.foldl_nil, hdayinit]
      rw [← hA] at hiA
      rw [← hB] at hiB
      rw [List.map_map] at hiA hiB
      exact congrArg₂ (fun a b => [(("A"), a), (("B"), b)]) hiA.symm hiB.symm
    · -- occupied slots: the appended block is re-read in order
      have hsaved : saved_resv s.resv key [(("A"), iA), (("B"), iB)] env.rowNow =
          (h0 :: t0.filter (fun r => !rowMatches r key)) ++
            new_rows key [(("A"), iA), (("B"), iB)] (iso env.rowNow) := by
        unfold saved_resv
        rw [if_neg hempty, hclean]
      have hload1 : ∀ (a b : WS), (load_date a b key blocks).1 =
          (find_rows_for_date a key).foldl (fun d i => apply_row d (wsRow a i))
            (load_day_init blocks) := fun a b => rfl
      rw [hload1, hresv', hsaved, List.cons_append]
      have hfind : find_rows_for_date (h0 :: (t0.filter (fun r => !rowMatches r key) ++
          new_rows key [(("A"), iA), (("B"), iB)] (iso env.rowNow))) key =
          List.range' ((h0 :: t0.filter (fun r => !rowMatches r key)).length + 1)
            (new_rows key [(("A"), iA), (("B"), iB)] (iso env.rowNow)).length := by
        have h1 : find_rows_for_date (h0 :: (t0.filter (fun r => !rowMatches r key) ++
            new_rows key [(("A"), iA), (("B"), iB)] (iso env.rowNow))) key =
            find_rows_go key (t0.filter (fun r => !rowMatches r key) ++
              new_rows key [(("A"), iA), (("B"), iB)] (iso env.rowNow)) 2 := rfl
        rw [h1, find_rows_go_append_none key _ _ 2 hcleanmem,
          find_rows_go_all_match key _ _ (mem_new_rows_matches key _ _)]
        congr 1
        simp
        omega
      rw [hfind]
      have hreads := map_wsRow_range'
        (new_rows key [(("A"), iA), (("B"), iB)] (iso env.rowNow))
        (h0 :: t0.filter (fun r => !rowMatches r key))
      rw [List.cons_append] at hreads
      rw [← List.foldl_map, hreads, hrows, List.foldl_append, hdayinit]
      have hfA := foldA key (iso env.rowNow) iA []
        (iB.map (fun q => (q.1, (none : Option Slot))))
        (fun p _ q hq => absurd hq (List.not_mem_nil q))
        (by rw [hA]; exact hnd) hcA'
      simp only [List.nil_append] at hfA
      rw [hfA]
      have hfB := foldB key (iso env.rowNow) iB [] iA
        (fun p _ q hq => absurd hq (List.not_mem_nil q))
        (by rw [hB]; exact hnd) hcB'
      simp only [List.nil_append] at hfB
      rw [hfB]

/-- Insertion preserves the presence of every key. -/
theorem dlookup_dinsert_isSome (d : List (String × α)) (k b : String) (v : α)
    (h : (dlookup b d).isSome = true) : (dlookup b (dinsert d k v)).isSome = true := by
  induction d with
  | nil => simp [dlookup] at h
  | cons p ps ih =>
      by_cases hpk : (p.1 == k) = true
      · simp only [dinsert, if_pos hpk]
        by_cases hkb : (k == b) = true
        · simp [dlookup, hkb]
        · have hpb : (p.1 == b) = false := by
            have hk : p.1 = k := beq_iff_eq.mp hpk
            rcases hb2 : (p.1 == b) with _ | _
            · rfl
            · exact absurd (beq_iff_eq.mpr (hk.symm.trans (beq_iff_eq.mp hb2))) (by
                simp [hkb])
          have hpb' : ¬((p.1 == b) = true) := by
            rw [hpb]
            exact Bool.false_ne_true
          have h1 : dlookup b ((k, v) :: ps) = dlookup b ps := by
            simp only [dlookup, if_neg hkb]
          have h2 : dlookup b (p :: ps) = dlookup b ps := by
            simp only [dlookup]
            rw [if_neg hpb']
          rw [h1]
          rw [h2] at h
          exact h
      · simp only [dinsert, if_neg hpk]
        by_cases hpb : (p.1 == b) = true
        · simp [dlookup, hpb]
        · have h1 : dlookup b (p :: dinsert ps k v) = dlookup b (dinsert ps k v) := by
            simp only [dlookup, if_neg hpb]
          have h2 : dlookup b (p :: ps) = dlookup b ps := by
            simp only [dlookup, if_neg hpb]
          rw [h1]
          rw [h2] at h
          exact ih h

/-- Inserting a key makes it present. -/
theorem dlookup_dinsert_self (d : List (String × α)) (k : String) (v : α) :
    dlookup k (dinsert d k v) = some v := by
  induction d with
  | nil => simp [dinsert, dlookup]
  | cons p ps ih =>
      by_cases hpk : (p.1 == k) = true
      · simp [dinsert, hpk, dlookup]
      · simp only [dinsert, if_neg hpk, dlookup, if_neg hpk]
        exact ih

/-- Every configured block is present in the initial per-court dict. -/
theorem dlookup_foldl_init :
    ∀ (bs : List String) (acc : CourtDict) (b : String),
      (b ∈ bs ∨ (dlookup b acc).isSome = true) →
      (dlookup b (bs.foldl (fun d c => dinsert d c none) acc)).isSome = true := by
  intro bs
  induction bs with
  | nil =>
      intro acc b h
      rcases h with h | h
      · simp at h
      · simpa using h
  | cons c cs ih =>
      intro acc b h
      simp only [List.foldl_cons]
      apply ih
      rcases h with h | h
      · rcases List.mem_cons.mp h with rfl | h2
        · right
          rw [dlookup_dinsert_self]
          rfl
        · left
          exact h2
      · right
        exact dlookup_dinsert_isSome acc c b none h

/-- One replayed row keeps the day shaped `A`-then-`B` and never removes a
block from either court. -/
theorem apply_row_shape (x y : CourtDict) (r : Row) :
    ∃ x' y', apply_row [(("A"), x), (("B"), y)] r = [(("A"), x'), (("B"), y')] ∧
      (∀ b, (dlookup b x).isSome = true → (dlookup b x').isSome = true) ∧
      (∀ b, (dlookup b y).isSome = true → (dlookup b y').isSome = true) := by
  unfold apply_row
  by_cases h6 : r.length ≥ 6
  · rw [if_pos h6]
    by_cases hab : (cell r 1 == ("A") || cell r 1 == ("B")) = true
    · rw [if_pos hab]
      have hab' : cell r 1 = ("A") ∨ cell r 1 = ("B") := by simpa using hab
      rcases hab' with hc | hc
      · rw [hc, dlookup_A, Option.getD_some, dinsert_head_eq]
        exact ⟨_, y, rfl,
          fun b hb => dlookup_dinsert_isSome x _ b _ hb, fun _ hb => hb⟩
      · rw [hc, dlookup_B, Option.getD_some,
          dinsert_head_ne _ _ _ _ (show (("A" : String)) ≠ ("B") from by decide),
          dinsert_head_eq]
        exact ⟨x, _, rfl, fun _ hb => hb,
          fun b hb => dlookup_dinsert_isSome y _ b _ hb⟩
    · rw [if_neg hab]
      exact ⟨x, y, rfl, fun _ hb => hb, fun _ hb => hb⟩
  · rw [if_neg h6]
    exact ⟨x, y, rfl, fun _ hb => hb, fun _ hb => hb⟩

/-- Replaying any row set keeps the day shaped `A`-then-`B` and keeps every
present block present. -/
theorem fold_apply_cover (resv : WS) :
    ∀ (l : List Nat) (x y : CourtDict),
      ∃ x' y', l.foldl (fun d i => apply_row d (wsRow resv i)) [(("A"), x), (("B"), y)] =
          [(("A"), x'), (("B"), y')] ∧
        (∀ b, (dlookup b x).isSome = true → (dlookup b x').isSome = true) ∧
        (∀ b, (dlookup b y).isSome = true → (dlookup b y').isSome = true) := by
  intro l
  induction l with
  | nil => intro x y; exact ⟨x, y, rfl, fun _ hb => hb, fun _ hb => hb⟩
  | cons i is ih =>
      intro x y
      obtain ⟨x1, y1, heq, hm1, hm2⟩ := apply_row_shape x y (wsRow resv i)
      obtain ⟨x', y', heq2, hn1, hn2⟩ := ih x1 y1
      refine ⟨x', y', ?_, fun b hb => hn1 b (hm1 b hb), fun b hb => hn2 b (hm2 b hb)⟩
      simp only [List.foldl_cons, heq]
      exact heq2

/-- Every row `save_date` emits carries court `A` or court `B`. -/
theorem mem_new_rows_court (key : String) (day : Day) (nowIso : String) :
    ∀ r ∈ new_rows key day nowIso, cell r 1 = ("A") ∨ cell r 1 = ("B") := by
  intro r hr
  have hcourt : ∀ (c : String) (inner : CourtDict), r ∈ court_rows key c inner nowIso →
      cell r 1 = c := by
    intro c inner hmem
    unfold court_rows at hmem
    obtain ⟨p, _, hfp⟩ := List.mem_filterMap.mp hmem
    obtain ⟨sl, _, hrow⟩ := Option.map_eq_some'.mp hfp
    rw [← hrow]
    rfl
  rcases List.mem_append.mp hr with h1 | h2
  · exact Or.inl (hcourt _ _ h1)
  · exact Or.inr (hcourt _ _ h2)

/-- Claim C9 counterexample: the lane set is not configuration.  A stored
row with the perfectly valid lane `"C"` is silently dropped by `load_date`
(the reconstructed day holds exactly lanes `A` and `B`, both empty), and
`save_date` persists nothing at all of a day whose only occupied slot sits
in lane `"C"`. -/
theorem lanes_hardcoded_cex :
    (load_date [["h"], [("d"), ("C"), ("L"), ("carol"), ("n"), ("t")]] [["h"]] ("d")
        [("L")]).1 =
      [(("A"), [(("L"), (none : Option Slot))]), (("B"), [(("L"), (none : Option Slot))])] ∧
    dlookup ("C") (load_date [["h"], [("d"), ("C"), ("L"), ("carol"), ("n"), ("t")]]
      [["h"]] ("d") [("L")]).1 = none ∧
    new_rows ("d") [(("C"), [(("L"), some (Slot.mk ("carol") ("n") ("t")))])] ("x") = [] := by
  decide

/-- Claim C9 as amended: the block-identifier set is externally configured,
but the lane set is hardcoded to `A` and `B` in this layer: `load_date`
always returns lanes exactly `A` then `B`, each covering every configured
block, and `save_date` only ever emits rows for lanes `A` and `B`. -/
theorem load_save_lanes_amended (resv vers : WS) (key : String) (blocks : List String)
    (day : Day) (nowIso : String) :
    (load_date resv vers key blocks).1.map Prod.fst = [("A"), ("B")] ∧
    (blocks.all fun b =>
      (dlookup b ((dlookup ("A") (load_date resv vers key blocks).1).getD [])).isSome &&
      (dlookup b ((dlookup ("B") (load_date resv vers key blocks).1).getD [])).isSome) =
      true ∧
    ((new_rows key day nowIso).all fun r =>
      (cell r 1 == ("A")) || (cell r 1 == ("B"))) = true := by
  have hload1 : (load_date resv vers key blocks).1 =
      (find_rows_for_date resv key).foldl (fun d i => apply_row d (wsRow resv i))
        [(("A"), blocks.foldl (fun d c => dinsert d c none) []),
         (("B"), blocks.foldl (fun d c => dinsert d c none) [])] := rfl
  obtain ⟨x', y', heq, hm1, hm2⟩ := fold_apply_cover resv (find_rows_for_date resv key)
    (blocks.foldl (fun d c => dinsert d c none) [])
    (blocks.foldl (fun d c => dinsert d c none) [])
  refine ⟨?_, ?_, ?_⟩
  · rw [hload1, heq]
    rfl
  · rw [List.all_eq_true]
    intro b hb
    have hinit : (dlookup b (blocks.foldl (fun d c => dinsert d c none) [])).isSome =
        true := dlookup_foldl_init blocks [] b (Or.inl hb)
    rw [hload1, heq, dlookup_A, dlookup_B, Option.getD_some, Option.getD_some]
    rw [Bool.and_eq_true]
    exact ⟨hm1 b hinit, hm2 b hinit⟩
  · rw [List.all_eq_true]
    intro r hr
    rcases mem_new_rows_court key day nowIso r hr with hc | hc
    · rw [hc]
      rfl
    · rw [hc]
      rfl

/-- Claim C8 counterexample: an occupied slot saved with an empty
`createdAt` comes back from the immediately following `load_date` carrying
the save-time clock instead, so the reloaded state is not equal (as Python
dicts) to the state that was committed, even though the commit succeeded. -/
theorem roundtrip_cex :
    (save_date ⟨[["h"]], [["h"]], [["h"]]⟩ ("d")
        [(("A"), [(("L"), some (Slot.mk ("alice") ("n") ("")))]),
         (("B"), [(("L"), (none : Option Slot))])]
        0 ("u") false 30 ⟨("t"), idEnv 0, 5, 9⟩).1 = (true, ("")) ∧
    dayEqB
      (load_date
        (save_date ⟨[["h"]], [["h"]], [["h"]]⟩ ("d")
          [(("A"), [(("L"), some (Slot.mk ("alice") ("n") ("")))]),
           (("B"), [(("L"), (none : Option Slot))])]
          0 ("u") false 30 ⟨("t"), idEnv 0, 5, 9⟩).2.resv
        (save_date ⟨[["h"]], [["h"]], [["h"]]⟩ ("d")
          [(("A"), [(("L"), some (Slot.mk ("alice") ("n") ("")))]),
           (("B"), [(("L"), (none : Option Slot))])]
          0 ("u") false 30 ⟨("t"), idEnv 0, 5, 9⟩).2.vers
        ("d") [("L")]).1
      [(("A"), [(("L"), some (Slot.mk ("alice") ("n") ("")))]),
       (("B"), [(("L"), (none : Option Slot))])] = false := by
  decide

/-- Witness for C8's amended claim at a concrete store and state. -/
theorem save_load_roundtrip_amended_witness :
    ((⟨[["h"]], [["h"]], [["h"]]⟩ : Sheets).resv ≠ [] ∧
      (save_date ⟨[["h"]], [["h"]], [["h"]]⟩ ("d")
        [(("A"), [(("L"), some (Slot.mk ("alice") ("n") ("t0")))]),
         (("B"), [(("L"), (none : Option Slot))])]
        0 ("u") true 30 ⟨("tk"), idEnv 100, 7, 9⟩).1 = (true, (""))) ∧
    ((load_date
        (save_date ⟨[["h"]], [["h"]], [["h"]]⟩ ("d")
          [(("A"), [(("L"), some (Slot.mk ("alice") ("n") ("t0")))]),
           (("B"), [(("L"), (none : Option Slot))])]
          0 ("u") true 30 ⟨("tk"), idEnv 100, 7, 9⟩).2.resv
        (save_date ⟨[["h"]], [["h"]], [["h"]]⟩ ("d")
          [(("A"), [(("L"), some (Slot.mk ("alice") ("n") ("t0")))]),
           (("B"), [(("L"), (none : Option Slot))])]
          0 ("u") true 30 ⟨("tk"), idEnv 100, 7, 9⟩).2.vers
        ("d") [("L")]).1 =
      [(("A"), [(("L"), some (Slot.mk ("alice") ("n") ("t0")))]),
       (("B"), [(("L"), (none : Option Slot))])] ∧
      (load_date
        (save_date ⟨[["h"]], [["h"]], [["h"]]⟩ ("d")
          [(("A"), [(("L"), some (Slot.mk ("alice") ("n") ("t0")))]),
           (("B"), [(("L"), (none : Option Slot))])]
          0 ("u") true 30 ⟨("tk"), idEnv 100, 7, 9⟩).2.resv
        (save_date ⟨[["h"]], [["h"]], [["h"]]⟩ ("d")
          [(("A"), [(("L"), some (Slot.mk ("alice") ("n") ("t0")))]),
           (("B"), [(("L"), (none : Option Slot))])]
          0 ("u") true 30 ⟨("tk"), idEnv 100, 7, 9⟩).2.vers
        ("d") [("L")]).2 =
      get_version (⟨[["h"]], [["h"]], [["h"]]⟩ : Sheets).vers ("d") + 1) :=
  ⟨⟨by decide, by decide⟩,
   save_load_roundtrip_amended ⟨[["h"]], [["h"]], [["h"]]⟩ ("d") ("u") [("L")]
     [(("L"), some (Slot.mk ("alice") ("n") ("t0")))] [(("L"), (none : Option Slot))]
     0 true 30 ⟨("tk"), idEnv 100, 7, 9⟩ (by decide) (by decide) (by decide) (by decide)
     (by decide) (by decide) (by decide) (by decide)⟩
